import Mathlib

/-!
# Verification of the memtx MVCC transaction manager (`src/box/memtx_tx.c`)

A shallow embedding of the data model and operations of the memtx
transaction manager: story visibility, the read-view list, story chains
with their `in_index` invariant, the garbage-collection step, statement
preparation, rollback, gap-write resolution, `history_add_stmt` failure
handling and the snapshot cleaner.  Each definition transcribes the
corresponding C function; theorems settle the specification claims.
-/

namespace MemtxTx

/-! ## Core visibility model

Transcribed from `memtx_tx_story_insert_is_visible` /
`memtx_tx_story_delete_is_visible` (memtx_tx.c:1707-1771) and
`memtx_tx_story_find_visible_tuple` (memtx_tx.c:1781-1801).

Transactions are identified by a numeric id; the transaction argument of
the visibility engine may be null (`Option`).  PSNs are `int64_t` in the
source; they are modelled as `Int`, with the source's `INT64_MAX`
standing for the "no read view" frontier.
-/

/-- `MEMTX_TX_ROLLBACKED_PSN` (memtx_tx.c:44-50): virtual PSN stamped on
the `del_psn` of a rolled-back story. -/
def ROLLBACKED_PSN : Int := 1

/-- Modelled from the spec: `TXN_MIN_PSN`, the smallest legitimate PSN, is
declared outside this repository slice (`txn.h`); the `static_assert` at
memtx_tx.c:52 only requires `MEMTX_TX_ROLLBACKED_PSN < TXN_MIN_PSN`, so
any value above `ROLLBACKED_PSN` is a faithful model. -/
def TXN_MIN_PSN : Int := 2

/-- `INT64_MAX`, the initial value of the local `rv_psn` in the
visibility checks. -/
def INT64_MAX : Int := 2 ^ 63 - 1

/-- A transaction as seen by the visibility engine: its identity and its
read-view PSN (`txn->rv_psn`, 0 when not in a read view). -/
structure VTxn where
  id : Nat
  rv_psn : Int
deriving DecidableEq, Repr

/-- A statement as referenced from a story (`txn_stmt`): only its owning
transaction matters for visibility. -/
structure VStmt where
  txn : Nat
deriving DecidableEq, Repr

/-- A story as seen by the visibility engine (`struct memtx_story`):
`del_stmt` is the linked list of deleting statements, `add_stmt` the
single adding statement. -/
structure VStory where
  tuple : Nat
  addStmt : Option VStmt
  addPsn : Int
  delStmts : List VStmt
  delPsn : Int
deriving DecidableEq, Repr

/-- Pointer comparison `stmt->txn == txn` against the (possibly null)
reading transaction: true only when both sides are the same real
transaction. -/
def stmtOwnedBy (s : VStmt) (txn : Option VTxn) : Bool :=
  match txn with
  | none => false
  | some t => t.id = s.txn

/-- The local `rv_psn` computed at the start of both visibility checks:
`INT64_MAX`, unless the transaction is non-null and in a read view. -/
def rvPsnOf (txn : Option VTxn) : Int :=
  match txn with
  | none => INT64_MAX
  | some t => if t.rv_psn ≠ 0 then t.rv_psn else INT64_MAX

/-- `memtx_tx_story_insert_is_visible` (memtx_tx.c:1707-1734), without the
`is_own_change` out-parameter (which does not affect the result). -/
def insertIsVisible (story : VStory) (txn : Option VTxn) (isPreparedOk : Bool) : Bool :=
  if story.addStmt.any (fun s => stmtOwnedBy s txn) then
    true
  else
    let rv := rvPsnOf txn
    if isPreparedOk && story.addPsn ≠ 0 && story.addPsn < rv then true
    else if story.addPsn ≠ 0 && story.addStmt = none && story.addPsn < rv then true
    else if story.addPsn = 0 && story.addStmt = none then true
    else false

/-- `memtx_tx_story_delete_is_visible` (memtx_tx.c:1743-1771), without the
`is_own_change` out-parameter. -/
def deleteIsVisible (story : VStory) (txn : Option VTxn) (isPreparedOk : Bool) : Bool :=
  if story.delStmts.any (fun s => stmtOwnedBy s txn) then
    true
  else
    let rv := rvPsnOf txn
    if isPreparedOk && story.delPsn ≠ 0 && story.delPsn < rv then true
    else if story.delPsn ≠ 0 && story.delStmts = [] && story.delPsn < rv then true
    else false

/-- `memtx_tx_story_find_visible_tuple` (memtx_tx.c:1781-1801): walk the
chain (given as the list of stories from the starting story through the
`older_story` links) and return the visible tuple, if any. -/
def findVisibleTuple (chain : List VStory) (txn : Option VTxn) (isPreparedOk : Bool) :
    Option Nat :=
  match chain with
  | [] => none
  | story :: older =>
    if deleteIsVisible story txn isPreparedOk then none
    else if insertIsVisible story txn isPreparedOk then some story.tuple
    else findVisibleTuple older txn isPreparedOk

/-! ### Claim-side visibility predicates (written from the spec text) -/

/-- The spec's `rv_psn(txn)`: `txn.rv_psn` when the transaction is in a
read view (`rv_psn != 0`), and `+∞` (modelled as `none`) otherwise,
including when `txn` is null. -/
def rvPsnSpec (txn : Option VTxn) : Option Int :=
  match txn with
  | none => none
  | some t => if t.rv_psn = 0 then none else some t.rv_psn

/-- `p < r` where `r` may be `+∞`. -/
def LtRv (p : Int) (r : Option Int) : Prop :=
  match r with
  | none => True
  | some v => p < v

/-- A statement belongs to the reading transaction (spec side). -/
def OwnedBySpec (s : VStmt) (txn : Option VTxn) : Prop :=
  ∃ t, txn = some t ∧ t.id = s.txn

/-- The spec's delete-visibility condition: some `del_stmt` belongs to
`txn`; or `allow_prepared` and `del_psn != 0` and `del_psn < rv_psn(txn)`;
or `del_psn != 0`, the `del_stmt` list is empty and `del_psn < rv_psn(txn)`. -/
def DeleteVisibleSpec (story : VStory) (txn : Option VTxn) (allowPrepared : Bool) : Prop :=
  (∃ s ∈ story.delStmts, OwnedBySpec s txn) ∨
  (allowPrepared = true ∧ story.delPsn ≠ 0 ∧ LtRv story.delPsn (rvPsnSpec txn)) ∨
  (story.delPsn ≠ 0 ∧ story.delStmts = [] ∧ LtRv story.delPsn (rvPsnSpec txn))

/-- The spec's insert-visibility condition: symmetric to delete visibility
on `add_stmt`/`add_psn`, plus the "added long ago" case (no `add_stmt`,
`add_psn = 0`). -/
def InsertVisibleSpec (story : VStory) (txn : Option VTxn) (allowPrepared : Bool) : Prop :=
  (∃ s, story.addStmt = some s ∧ OwnedBySpec s txn) ∨
  (allowPrepared = true ∧ story.addPsn ≠ 0 ∧ LtRv story.addPsn (rvPsnSpec txn)) ∨
  (story.addPsn ≠ 0 ∧ story.addStmt = none ∧ LtRv story.addPsn (rvPsnSpec txn)) ∨
  (story.addStmt = none ∧ story.addPsn = 0)

lemma stmtOwnedBy_iff (s : VStmt) (txn : Option VTxn) :
    stmtOwnedBy s txn = true ↔ OwnedBySpec s txn := by
  cases txn with
  | none => simp [stmtOwnedBy, OwnedBySpec]
  | some t =>
    simp only [stmtOwnedBy, OwnedBySpec, decide_eq_true_eq]
    constructor
    · intro h; exact ⟨t, rfl, h⟩
    · rintro ⟨t', ht', hid⟩; cases ht'; exact hid

lemma ltRv_iff (p : Int) (txn : Option VTxn) (hp : p < INT64_MAX) :
    p < rvPsnOf txn ↔ LtRv p (rvPsnSpec txn) := by
  cases txn with
  | none => simpa [rvPsnOf, rvPsnSpec, LtRv] using hp
  | some t =>
    by_cases h : t.rv_psn = 0 <;> simp [rvPsnOf, rvPsnSpec, LtRv, h, hp]

/-- **C1.** The visibility engine's delete-visibility check holds exactly
under the spec's disjunction on `del_stmt`/`del_psn`, and the insert check
holds exactly under the symmetric condition together with the
"added long ago" case; `rv_psn(txn)` is `txn.rv_psn` when in a read view
and `+∞` otherwise (also for a null transaction).  The bounds say the
story's PSNs are genuine `int64` PSN values below `INT64_MAX`. -/
theorem visibility_matches_spec (story : VStory) (txn : Option VTxn) (ok : Bool)
    (hdel : story.delPsn < INT64_MAX) (hadd : story.addPsn < INT64_MAX) :
    (deleteIsVisible story txn ok = true ↔ DeleteVisibleSpec story txn ok) ∧
    (insertIsVisible story txn ok = true ↔ InsertVisibleSpec story txn ok) := by
  constructor
  · unfold deleteIsVisible DeleteVisibleSpec
    by_cases hown : story.delStmts.any (fun s => stmtOwnedBy s txn) = true
    · simp only [hown, if_true, true_iff]
      left
      rcases List.any_eq_true.mp hown with ⟨s, hs, hsb⟩
      exact ⟨s, hs, (stmtOwnedBy_iff s txn).mp hsb⟩
    · have hnone : ¬ ∃ s ∈ story.delStmts, OwnedBySpec s txn := by
        rintro ⟨s, hs, hspec⟩
        exact hown (List.any_eq_true.mpr ⟨s, hs, (stmtOwnedBy_iff s txn).mpr hspec⟩)
      simp only [hown, if_false, hnone, false_or]
      have hlt := ltRv_iff story.delPsn txn hdel
      by_cases h1 : ok = true
      · by_cases h2 : story.delPsn = 0
        · simp [h1, h2, LtRv]
        · by_cases h3 : story.delPsn < rvPsnOf txn
          · simp only [h1, h2, h3]
            simp only [hlt.mp h3]
            simp [h1, h2]
          · have h3' : ¬ LtRv story.delPsn (rvPsnSpec txn) := fun hc => h3 (hlt.mpr hc)
            by_cases h4 : story.delStmts = [] <;> simp [h1, h2, h3, h3', h4]
      · have h1' : ok = false := by cases ok <;> simp_all
        by_cases h2 : story.delPsn = 0
        · simp [h1', h2]
        · by_cases h4 : story.delStmts = []
          · by_cases h3 : story.delPsn < rvPsnOf txn
            · simp only [h1', h2, h3, h4]
              simp only [hlt.mp h3]
              simp
            · have h3' : ¬ LtRv story.delPsn (rvPsnSpec txn) := fun hc => h3 (hlt.mpr hc)
              simp [h1', h2, h3, h3', h4]
          · by_cases h3 : story.delPsn < rvPsnOf txn <;> simp [h1', h2, h3, h4]
  · unfold insertIsVisible InsertVisibleSpec
    by_cases hown : story.addStmt.any (fun s => stmtOwnedBy s txn) = true
    · simp only [hown, if_true, true_iff]
      left
      cases hst : story.addStmt with
      | none => rw [hst] at hown; simp [Option.any] at hown
      | some s =>
        rw [hst] at hown
        exact ⟨s, rfl, (stmtOwnedBy_iff s txn).mp (by simpa [Option.any] using hown)⟩
    · have hnone : ¬ ∃ s, story.addStmt = some s ∧ OwnedBySpec s txn := by
        rintro ⟨s, hs, hspec⟩
        apply hown
        rw [hs]
        simpa [Option.any] using (stmtOwnedBy_iff s txn).mpr hspec
      simp only [hown, if_false, hnone, false_or]
      have hlt := ltRv_iff story.addPsn txn hadd
      by_cases h1 : ok = true
      · by_cases h2 : story.addPsn = 0
        · by_cases h5 : story.addStmt = none <;> simp [h1, h2, h5, LtRv]
        · by_cases h3 : story.addPsn < rvPsnOf txn
          · simp only [h1, h2, h3]
            simp only [hlt.mp h3]
            simp [h1, h2]
          · have h3' : ¬ LtRv story.addPsn (rvPsnSpec txn) := fun hc => h3 (hlt.mpr hc)
            by_cases h5 : story.addStmt = none <;> simp [h1, h2, h3, h3', h5]
      · have h1' : ok = false := by cases ok <;> simp_all
        by_cases h2 : story.addPsn = 0
        · by_cases h5 : story.addStmt = none <;> simp [h1', h2, h5]
        · by_cases h5 : story.addStmt = none
          · by_cases h3 : story.addPsn < rvPsnOf txn
            · simp only [h1', h2, h3, h5]
              simp only [hlt.mp h3]
              simp
            · have h3' : ¬ LtRv story.addPsn (rvPsnSpec txn) := fun hc => h3 (hlt.mpr hc)
              simp [h1', h2, h3, h3', h5]
          · by_cases h3 : story.addPsn < rvPsnOf txn <;> simp [h1', h2, h3, h5]

/-- Witness for C1 at a concrete story and transaction. -/
theorem visibility_matches_spec_witness :
    (0 : Int) < INT64_MAX ∧ (5 : Int) < INT64_MAX ∧
    ((deleteIsVisible ⟨7, none, 5, [], 0⟩ (some ⟨3, 9⟩) true = true ↔
        DeleteVisibleSpec ⟨7, none, 5, [], 0⟩ (some ⟨3, 9⟩) true) ∧
     (insertIsVisible ⟨7, none, 5, [], 0⟩ (some ⟨3, 9⟩) true = true ↔
        InsertVisibleSpec ⟨7, none, 5, [], 0⟩ (some ⟨3, 9⟩) true)) :=
  ⟨by decide, by decide,
   visibility_matches_spec ⟨7, none, 5, [], 0⟩ (some ⟨3, 9⟩) true (by decide) (by decide)⟩

/-! ## Nearby-gap resolution on insertion (`memtx_tx_handle_gap_write`)

Transcribed from memtx_tx.c:2096-2178.  The tuple/key comparison
`tuple_compare_with_key` is external; its result is a parameter. -/

/-- `enum iterator_type` (the variants reaching nearby-gap trackers). -/
inductive IterType
  | eq | req | all | lt | le | ge | gt
deriving DecidableEq, Repr

/-- Modelled from the spec: `iterator_direction` is declared outside this
repository slice (`iterator_type.h`); the spec's `dir = ±1` is `-1` for
the reverse iterators `LE`, `LT`, `REQ` and `+1` otherwise. -/
def iteratorDirection (t : IterType) : Int :=
  match t with
  | .le | .lt | .req => -1
  | _ => 1

/-- A nearby-gap tracker (`struct nearby_gap_item`): owning transaction,
iterator type, whether a key is stored and its part count. -/
structure NearbyItem where
  txn : Nat
  itype : IterType
  hasKey : Bool
  partCount : Nat
deriving DecidableEq, Repr

/-- The `need_split` / `need_move` / `need_track` triple computed for one
tracker in `memtx_tx_handle_gap_write` (memtx_tx.c:2126-2149).  `cmpRaw`
is the comparator result `cmp(new_tuple, key)`; the local `cmp` stays `0`
when the tracker stores no key. -/
def nearbyFlags (cmpDefPartCount : Nat) (cmpRaw : Int) (item : NearbyItem) :
    Bool × Bool × Bool :=
  let cmp : Int := if item.hasKey then cmpRaw else 0
  let dir := iteratorDirection item.itype
  let isFullKey : Bool := item.partCount = cmpDefPartCount
  let isEq : Bool := item.itype = IterType.eq || item.itype = IterType.req
  let isE : Bool := item.itype = IterType.le || item.itype = IterType.ge
  let needSplit : Bool :=
    !item.hasKey || (decide (dir * cmp > 0) && !isEq) ||
      (!isFullKey && decide (cmp = 0) && (isE || isEq))
  let needMove : Bool :=
    !needSplit &&
      ((decide (dir < 0) && decide (cmp > 0)) ||
       (decide (cmp > 0) && decide (item.itype = IterType.eq)) ||
       (decide (cmp = 0) && ((decide (dir < 0) && isFullKey) ||
                             decide (item.itype = IterType.lt))))
  let needTrack : Bool := needSplit || (isFullKey && decide (cmp = 0) && isE)
  (needSplit, needMove, needTrack)

/-- Processing of the successor's nearby-gap list on an insertion with no
directly replaced tuple: returns the transactions for which a gap
observer is added on the new story (`need_track`), the trackers that end
up on the new story's gap list (clones for `need_split`, relinked
originals for `need_move`), and the trackers remaining on the successor
(everything not moved). -/
def handleNearbyGaps (cmpDefPartCount : Nat) (cmpOf : NearbyItem → Int) :
    List NearbyItem → List Nat × List NearbyItem × List NearbyItem
  | [] => ([], [], [])
  | item :: rest =>
    let acc := handleNearbyGaps cmpDefPartCount cmpOf rest
    let f := nearbyFlags cmpDefPartCount (cmpOf item) item
    ((if f.2.2 then item.txn :: acc.1 else acc.1),
     (if f.1 || f.2.1 then item :: acc.2.1 else acc.2.1),
     (if f.2.1 then acc.2.2 else item :: acc.2.2))

/-! ### Claim-side formulas (written from the spec text) -/

/-- The spec's `need_split`: key is empty, or `dir·cmp > 0 ∧ ¬is_eq`, or
`¬is_full_key ∧ cmp = 0 ∧ (is_e ∨ is_eq)`. -/
def NeedSplitSpec (cmpDefPartCount : Nat) (cmpRaw : Int) (item : NearbyItem) : Prop :=
  let cmp : Int := if item.hasKey then cmpRaw else 0
  let dir := iteratorDirection item.itype
  let isFullKey : Prop := item.partCount = cmpDefPartCount
  let isEq : Prop := item.itype = IterType.eq ∨ item.itype = IterType.req
  let isE : Prop := item.itype = IterType.le ∨ item.itype = IterType.ge
  item.hasKey = false ∨ (dir * cmp > 0 ∧ ¬isEq) ∨ (¬isFullKey ∧ cmp = 0 ∧ (isE ∨ isEq))

/-- The spec's `need_move`: `¬split ∧ ((dir < 0 ∧ cmp > 0) ∨ (cmp > 0 ∧ EQ)
∨ (cmp = 0 ∧ ((dir < 0 ∧ is_full_key) ∨ type = LT)))`. -/
def NeedMoveSpec (cmpDefPartCount : Nat) (cmpRaw : Int) (item : NearbyItem) : Prop :=
  let cmp : Int := if item.hasKey then cmpRaw else 0
  let dir := iteratorDirection item.itype
  let isFullKey : Prop := item.partCount = cmpDefPartCount
  ¬ NeedSplitSpec cmpDefPartCount cmpRaw item ∧
    ((dir < 0 ∧ cmp > 0) ∨ (cmp > 0 ∧ item.itype = IterType.eq) ∨
     (cmp = 0 ∧ ((dir < 0 ∧ isFullKey) ∨ item.itype = IterType.lt)))

/-- The spec's `need_track`: `split ∨ (is_full_key ∧ cmp = 0 ∧ is_e)`. -/
def NeedTrackSpec (cmpDefPartCount : Nat) (cmpRaw : Int) (item : NearbyItem) : Prop :=
  let cmp : Int := if item.hasKey then cmpRaw else 0
  NeedSplitSpec cmpDefPartCount cmpRaw item ∨
    (item.partCount = cmpDefPartCount ∧ cmp = 0 ∧
     (item.itype = IterType.le ∨ item.itype = IterType.ge))

lemma needSplit_iff (pc : Nat) (c : Int) (item : NearbyItem) :
    (nearbyFlags pc c item).1 = true ↔ NeedSplitSpec pc c item := by
  rcases item with ⟨tn, ty, hk, pcnt⟩
  cases ty <;> cases hk <;>
    simp [nearbyFlags, NeedSplitSpec, iteratorDirection]

lemma needMove_iff (pc : Nat) (c : Int) (item : NearbyItem) :
    (nearbyFlags pc c item).2.1 = true ↔ NeedMoveSpec pc c item := by
  rcases item with ⟨tn, ty, hk, pcnt⟩
  cases ty <;> cases hk <;>
    simp [nearbyFlags, NeedMoveSpec, NeedSplitSpec, iteratorDirection] <;> tauto

lemma needTrack_iff (pc : Nat) (c : Int) (item : NearbyItem) :
    (nearbyFlags pc c item).2.2 = true ↔ NeedTrackSpec pc c item := by
  rcases item with ⟨tn, ty, hk, pcnt⟩
  cases ty <;> cases hk <;>
    simp [nearbyFlags, NeedTrackSpec, NeedSplitSpec, iteratorDirection] <;> tauto

lemma handleNearbyGaps_eq (pc : Nat) (cmpOf : NearbyItem → Int) (items : List NearbyItem) :
    handleNearbyGaps pc cmpOf items =
      ((items.filter (fun it => (nearbyFlags pc (cmpOf it) it).2.2)).map NearbyItem.txn,
       items.filter
         (fun it => (nearbyFlags pc (cmpOf it) it).1 || (nearbyFlags pc (cmpOf it) it).2.1),
       items.filter (fun it => !(nearbyFlags pc (cmpOf it) it).2.1)) := by
  induction items with
  | nil => rfl
  | cons item rest ih =>
    cases h1 : (nearbyFlags pc (cmpOf item) item).1 <;>
      cases h2 : (nearbyFlags pc (cmpOf item) item).2.1 <;>
        cases h3 : (nearbyFlags pc (cmpOf item) item).2.2 <;>
          simp [handleNearbyGaps, ih, h1, h2, h3, List.filter_cons]

/-- **C6.** On an insertion into a gap, every nearby-gap tracker of the
successor is resolved by the `need_split` / `need_move` / `need_track`
formulas of the spec, and: trackers with `need_track` produce a gap
observer for their transaction on the new story, clones of `need_split`
trackers and relinked `need_move` trackers make up the new story's gap
list, and the successor retains exactly the trackers that were not
moved. -/
theorem gap_write_policy (pc : Nat) (cmpOf : NearbyItem → Int) (items : List NearbyItem) :
    (∀ c item, ((nearbyFlags pc c item).1 = true ↔ NeedSplitSpec pc c item) ∧
               ((nearbyFlags pc c item).2.1 = true ↔ NeedMoveSpec pc c item) ∧
               ((nearbyFlags pc c item).2.2 = true ↔ NeedTrackSpec pc c item)) ∧
    (∀ t, t ∈ (handleNearbyGaps pc cmpOf items).1 ↔
      ∃ item ∈ items, NeedTrackSpec pc (cmpOf item) item ∧ t = item.txn) ∧
    (∀ item, item ∈ (handleNearbyGaps pc cmpOf items).2.1 ↔
      item ∈ items ∧ (NeedSplitSpec pc (cmpOf item) item ∨ NeedMoveSpec pc (cmpOf item) item)) ∧
    (∀ item, item ∈ (handleNearbyGaps pc cmpOf items).2.2 ↔
      item ∈ items ∧ ¬ NeedMoveSpec pc (cmpOf item) item) := by
  refine ⟨fun c item => ⟨needSplit_iff pc c item, needMove_iff pc c item,
    needTrack_iff pc c item⟩, ?_, ?_, ?_⟩
  · intro t
    rw [handleNearbyGaps_eq]
    simp only [List.mem_map, List.mem_filter]
    constructor
    · rintro ⟨a, ⟨ha, hf⟩, rfl⟩
      exact ⟨a, ha, (needTrack_iff _ _ _).mp hf, rfl⟩
    · rintro ⟨a, ha, hn, rfl⟩
      exact ⟨a, ⟨ha, (needTrack_iff _ _ _).mpr hn⟩, rfl⟩
  · intro it
    rw [handleNearbyGaps_eq]
    simp only [List.mem_filter, Bool.or_eq_true]
    constructor
    · rintro ⟨ha, hf | hf⟩
      · exact ⟨ha, Or.inl ((needSplit_iff _ _ _).mp hf)⟩
      · exact ⟨ha, Or.inr ((needMove_iff _ _ _).mp hf)⟩
    · rintro ⟨ha, hf | hf⟩
      · exact ⟨ha, Or.inl ((needSplit_iff _ _ _).mpr hf)⟩
      · exact ⟨ha, Or.inr ((needMove_iff _ _ _).mpr hf)⟩
  · intro it
    rw [handleNearbyGaps_eq]
    simp only [List.mem_filter, Bool.not_eq_true']
    constructor
    · rintro ⟨ha, hf⟩
      refine ⟨ha, fun hc => ?_⟩
      rw [(needMove_iff _ _ _).mpr hc] at hf
      exact absurd hf (by simp)
    · rintro ⟨ha, hf⟩
      refine ⟨ha, ?_⟩
      cases h : (nearbyFlags pc (cmpOf it) it).2.1 with
      | false => rfl
      | true => exact absurd ((needMove_iff _ _ _).mp h) hf

/-! ## The global read-view list

Transcribed from `memtx_tx_adjust_position_in_read_view_list`
(memtx_tx.c:968-986), `memtx_tx_send_to_read_view` (memtx_tx.c:995-1014)
and `memtx_tx_abort_with_conflict` (memtx_tx.c:988-993).  The list
`txm.read_view_txs` is modelled as a list of `(txn id, rv_psn)` pairs in
list order; a transaction is in a read view iff it occurs in the list. -/

/-- An entry of the read-view list: transaction id and its `rv_psn`. -/
abbrev RvEntry := Nat × Int

/-- The backward walk of `memtx_tx_adjust_position_in_read_view_list`:
split a predecessor list into `(a, b)` where `b` is the maximal suffix
whose entries all have `rv_psn` greater than `rv` (the entries the
transaction jumps over) and `a` is the rest. -/
def splitGreaterSuffix : List RvEntry → Int → List RvEntry × List RvEntry
  | [], _ => ([], [])
  | e :: rest, rv =>
    let a := (splitGreaterSuffix rest rv).1
    let b := (splitGreaterSuffix rest rv).2
    if a = [] ∧ rv < e.2 then ([], e :: b) else (e :: a, b)

/-- `memtx_tx_adjust_position_in_read_view_list`: reinsert the entry `e`
before the run of predecessors with strictly greater `rv_psn` (a no-op
when the immediate predecessor is already not greater). -/
def adjustPosition (pre : List RvEntry) (e : RvEntry) (post : List RvEntry) :
    List RvEntry :=
  (splitGreaterSuffix pre e.2).1 ++ e :: ((splitGreaterSuffix pre e.2).2 ++ post)

/-- Locate a transaction in the list, returning the entries before it,
its `rv_psn` and the entries after it. -/
def lookupSplit : List RvEntry → Nat → Option (List RvEntry × Int × List RvEntry)
  | [], _ => none
  | e :: rest, tid =>
    if e.1 = tid then some ([], e.2, rest)
    else (lookupSplit rest tid).map (fun t => (e :: t.1, t.2.1, t.2.2))

/-- `memtx_tx_send_to_read_view`: a transaction not yet in a read view
gets `rv_psn = psn` and is appended to the tail; one already in a read
view gets `rv_psn` lowered to `psn` when `rv_psn > psn`; in both cases
the position is then adjusted to keep the list ordered. -/
def sendToReadView (l : List RvEntry) (tid : Nat) (p : Int) : List RvEntry :=
  match lookupSplit l tid with
  | none => adjustPosition l (tid, p) []
  | some (pre, rv, post) => adjustPosition pre (tid, if rv > p then p else rv) post

/-- `memtx_tx_abort_with_conflict` / `memtx_tx_clear_txn_read_lists`:
removal from the read-view list. -/
def removeFromReadView (l : List RvEntry) (tid : Nat) : List RvEntry :=
  l.eraseP (fun e => e.1 = tid)

/-- Ascending order on `rv_psn`, the order the list must maintain. -/
abbrev RvLe (a b : RvEntry) : Prop := a.2 ≤ b.2

/-- The operations of the manager that touch the read-view list. -/
inductive RvStep : List RvEntry → List RvEntry → Prop
  | send (l : List RvEntry) (tid : Nat) (p : Int) : RvStep l (sendToReadView l tid p)
  | remove (l : List RvEntry) (tid : Nat) : RvStep l (removeFromReadView l tid)

/-- Reachable read-view lists: obtained from the empty list (manager
startup) by manager operations. -/
def RvReachable (l : List RvEntry) : Prop := Relation.ReflTransGen RvStep [] l

lemma splitGreaterSuffix_append (l : List RvEntry) (rv : Int) :
    (splitGreaterSuffix l rv).1 ++ (splitGreaterSuffix l rv).2 = l := by
  induction l with
  | nil => rfl
  | cons e rest ih =>
    simp only [splitGreaterSuffix]
    split_ifs with h
    · have hb := ih
      rw [h.1, List.nil_append] at hb
      simp [hb]
    · simp only [List.cons_append, ih]

lemma splitGreaterSuffix_gt (l : List RvEntry) (rv : Int) :
    ∀ x ∈ (splitGreaterSuffix l rv).2, rv < x.2 := by
  induction l with
  | nil => simp [splitGreaterSuffix]
  | cons e rest ih =>
    simp only [splitGreaterSuffix]
    split_ifs with h
    · intro x hx
      rcases List.mem_cons.mp hx with rfl | hx
      · exact h.2
      · exact ih x hx
    · exact ih

lemma splitGreaterSuffix_le (l : List RvEntry) (rv : Int)
    (hs : List.Pairwise RvLe l) :
    ∀ x ∈ (splitGreaterSuffix l rv).1, x.2 ≤ rv := by
  induction l with
  | nil => simp [splitGreaterSuffix]
  | cons e rest ih =>
    rcases List.pairwise_cons.mp hs with ⟨he, hrest⟩
    simp only [splitGreaterSuffix]
    split_ifs with h
    · simp
    · intro x hx
      rcases List.mem_cons.mp hx with rfl | hx
      · by_cases ha : (splitGreaterSuffix rest rv).1 = []
        · have hnot : ¬ rv < x.2 := fun hc => h ⟨ha, hc⟩
          omega
        · obtain ⟨y, hy⟩ := List.exists_mem_of_ne_nil _ ha
          have hy_le := ih hrest y hy
          have hy_rest : y ∈ rest := by
            rw [← splitGreaterSuffix_append rest rv]
            exact List.mem_append.mpr (Or.inl hy)
          exact le_trans (he y hy_rest) hy_le
      · exact ih hrest x hx

lemma adjustPosition_perm (pre : List RvEntry) (e : RvEntry) (post : List RvEntry) :
    List.Perm (adjustPosition pre e post) (e :: (pre ++ post)) := by
  unfold adjustPosition
  have h1 : List.Perm
      ((splitGreaterSuffix pre e.2).1 ++ e :: ((splitGreaterSuffix pre e.2).2 ++ post))
      (e :: ((splitGreaterSuffix pre e.2).1 ++ ((splitGreaterSuffix pre e.2).2 ++ post))) :=
    List.perm_middle
  have h2 : (splitGreaterSuffix pre e.2).1 ++ ((splitGreaterSuffix pre e.2).2 ++ post) =
      pre ++ post := by
    rw [← List.append_assoc, splitGreaterSuffix_append]
  rw [h2] at h1
  exact h1

lemma adjustPosition_sorted (pre post : List RvEntry) (e : RvEntry)
    (hs : List.Pairwise RvLe (pre ++ post))
    (hpost : ∀ x ∈ post, e.2 ≤ x.2) :
    List.Pairwise RvLe (adjustPosition pre e post) := by
  have hpre : List.Pairwise RvLe pre := (List.pairwise_append.mp hs).1
  have hpostP : List.Pairwise RvLe post := (List.pairwise_append.mp hs).2.1
  have hcross : ∀ x ∈ pre, ∀ y ∈ post, RvLe x y := (List.pairwise_append.mp hs).2.2
  have hsplit := splitGreaterSuffix_append pre e.2
  have hpre' : List.Pairwise RvLe
      ((splitGreaterSuffix pre e.2).1 ++ (splitGreaterSuffix pre e.2).2) := by
    rw [hsplit]; exact hpre
  have ha : List.Pairwise RvLe (splitGreaterSuffix pre e.2).1 :=
    (List.pairwise_append.mp hpre').1
  have hb : List.Pairwise RvLe (splitGreaterSuffix pre e.2).2 :=
    (List.pairwise_append.mp hpre').2.1
  have hab : ∀ x ∈ (splitGreaterSuffix pre e.2).1,
      ∀ y ∈ (splitGreaterSuffix pre e.2).2, RvLe x y :=
    (List.pairwise_append.mp hpre').2.2
  have hmem_a : ∀ x ∈ (splitGreaterSuffix pre e.2).1, x ∈ pre := by
    intro x hx; rw [← hsplit]; exact List.mem_append.mpr (Or.inl hx)
  have hmem_b : ∀ x ∈ (splitGreaterSuffix pre e.2).2, x ∈ pre := by
    intro x hx; rw [← hsplit]; exact List.mem_append.mpr (Or.inr hx)
  unfold adjustPosition
  rw [List.pairwise_append]
  refine ⟨ha, ?_, ?_⟩
  · rw [List.pairwise_cons]
    refine ⟨?_, ?_⟩
    · intro y hy
      rcases List.mem_append.mp hy with hy | hy
      · exact le_of_lt (splitGreaterSuffix_gt pre e.2 y hy)
      · exact hpost y hy
    · rw [List.pairwise_append]
      exact ⟨hb, hpostP, fun x hx y hy => hcross x (hmem_b x hx) y hy⟩
  · intro x hx y hy
    have hxle : x.2 ≤ e.2 := splitGreaterSuffix_le pre e.2 hpre x hx
    rcases List.mem_cons.mp hy with rfl | hy
    · exact hxle
    · rcases List.mem_append.mp hy with hy | hy
      · exact le_trans hxle (le_of_lt (splitGreaterSuffix_gt pre e.2 y hy))
      · exact hcross x (hmem_a x hx) y hy

lemma lookupSplit_eq (l : List RvEntry) (tid : Nat) (pre : List RvEntry) (rv : Int)
    (post : List RvEntry) (h : lookupSplit l tid = some (pre, rv, post)) :
    l = pre ++ (tid, rv) :: post ∧ ∀ x ∈ pre, x.1 ≠ tid := by
  induction l generalizing pre with
  | nil => simp [lookupSplit] at h
  | cons e rest ih =>
    simp only [lookupSplit] at h
    split_ifs at h with he
    · obtain ⟨rfl, rfl, rfl⟩ :
          ([] : List RvEntry) = pre ∧ e.2 = rv ∧ rest = post := by
        simpa using h
      refine ⟨?_, by simp⟩
      simp only [List.nil_append]
      rw [← he]
    · rcases Option.map_eq_some'.mp h with ⟨t, hrec, heq⟩
      obtain ⟨pre', v', post'⟩ := t
      obtain ⟨rfl, rfl, rfl⟩ : e :: pre' = pre ∧ v' = rv ∧ post' = post := by
        simpa using heq
      obtain ⟨hl, hpre⟩ := ih pre' hrec
      refine ⟨by rw [hl]; simp, ?_⟩
      intro x hx
      rcases List.mem_cons.mp hx with rfl | hx
      · exact he
      · exact hpre x hx

lemma lookupSplit_none_iff (l : List RvEntry) (tid : Nat) :
    lookupSplit l tid = none ↔ ∀ x ∈ l, x.1 ≠ tid := by
  induction l with
  | nil => simp [lookupSplit]
  | cons e rest ih =>
    simp only [lookupSplit]
    split_ifs with he
    · constructor
      · intro h; simp at h
      · intro h; exact absurd he (h e (List.mem_cons_self e rest))
    · rw [Option.map_eq_none', ih]
      constructor
      · intro h x hx
        rcases List.mem_cons.mp hx with rfl | hx
        · exact he
        · exact h x hx
      · intro h x hx
        exact h x (List.mem_cons_of_mem e hx)

/-- The manager's observation of the `rv_psn` of a transaction in the
read-view list. -/
def rvOf (l : List RvEntry) (tid : Nat) : Option Int :=
  (lookupSplit l tid).map (fun t => t.2.1)

lemma rvOf_none_lookup (l : List RvEntry) (tid : Nat) (h : rvOf l tid = none) :
    lookupSplit l tid = none := by
  unfold rvOf at h
  exact Option.map_eq_none'.mp h

lemma lookupSplit_append_mid (a : List RvEntry) (tid : Nat) (v : Int)
    (rest : List RvEntry) (ha : ∀ x ∈ a, x.1 ≠ tid) :
    lookupSplit (a ++ (tid, v) :: rest) tid = some (a, v, rest) := by
  induction a with
  | nil => simp [lookupSplit]
  | cons e a' ih =>
    have he : e.1 ≠ tid := ha e (List.mem_cons_self e a')
    have ih2 := ih (fun x hx => ha x (List.mem_cons_of_mem e hx))
    simp [lookupSplit, he, ih2]

lemma rvOf_append_mid (a : List RvEntry) (tid : Nat) (v : Int)
    (rest : List RvEntry) (ha : ∀ x ∈ a, x.1 ≠ tid) :
    rvOf (a ++ (tid, v) :: rest) tid = some v := by
  unfold rvOf
  rw [lookupSplit_append_mid a tid v rest ha]
  rfl

lemma rvOf_cons_ne (e : RvEntry) (l : List RvEntry) (tid : Nat) (h : ¬ e.1 = tid) :
    rvOf (e :: l) tid = rvOf l tid := by
  cases hl : lookupSplit l tid with
  | none => simp [rvOf, lookupSplit, h, hl]
  | some t => simp [rvOf, lookupSplit, h, hl]

lemma rvOf_mem (l : List RvEntry) (tid : Nat) (rv : Int) (h : rvOf l tid = some rv) :
    (tid, rv) ∈ l := by
  unfold rvOf at h
  rcases Option.map_eq_some'.mp h with ⟨t, hl, hv⟩
  obtain ⟨pre, v, post⟩ := t
  have hv2 : v = rv := by simpa using hv
  obtain ⟨hl2, -⟩ := lookupSplit_eq l tid pre v post hl
  rw [hl2, hv2]
  exact List.mem_append.mpr (Or.inr (List.mem_cons_self _ _))

lemma rvOf_eq_of_mem (l : List RvEntry) (tid : Nat) (v : Int)
    (hnd : (l.map Prod.fst).Nodup) (hm : (tid, v) ∈ l) :
    rvOf l tid = some v := by
  obtain ⟨a, rest, rfl⟩ := List.append_of_mem hm
  have ha : ∀ x ∈ a, x.1 ≠ tid := by
    intro x hx hx1
    have hmem : tid ∈ a.map Prod.fst := hx1 ▸ List.mem_map_of_mem Prod.fst hx
    have hnd2 : (a.map Prod.fst ++ ((tid, v) :: rest).map Prod.fst).Nodup := by
      simpa [List.map_append] using hnd
    have hdisj := (List.nodup_append.mp hnd2).2.2
    exact hdisj hmem (by simp)
  exact rvOf_append_mid a tid v rest ha

lemma rvOf_perm (l l' : List RvEntry) (tid : Nat)
    (hnd : (l.map Prod.fst).Nodup) (hp : List.Perm l l') :
    rvOf l tid = rvOf l' tid := by
  have hnd' : (l'.map Prod.fst).Nodup := ((hp.map Prod.fst).nodup_iff).mp hnd
  cases h : rvOf l tid with
  | none =>
    have hl0 := rvOf_none_lookup l tid h
    symm
    cases hl : lookupSplit l' tid with
    | none => unfold rvOf; rw [hl]; rfl
    | some trip =>
      obtain ⟨pre, v, post⟩ := trip
      obtain ⟨hl2, -⟩ := lookupSplit_eq l' tid pre v post hl
      have hm : (tid, v) ∈ l := hp.mem_iff.mpr (by rw [hl2]; simp)
      exact absurd rfl ((lookupSplit_none_iff l tid).mp hl0 (tid, v) hm)
  | some rv =>
    have hm : (tid, rv) ∈ l' := hp.mem_iff.mp (rvOf_mem l tid rv h)
    rw [rvOf_eq_of_mem l' tid rv hnd' hm]

lemma sendToReadView_sorted (l : List RvEntry) (tid : Nat) (p : Int)
    (hs : List.Pairwise RvLe l) :
    List.Pairwise RvLe (sendToReadView l tid p) := by
  unfold sendToReadView
  cases hl : lookupSplit l tid with
  | none =>
    exact adjustPosition_sorted l [] (tid, p) (by simpa using hs) (by simp)
  | some trip =>
    obtain ⟨pre, rv, post⟩ := trip
    obtain ⟨rfl, -⟩ := lookupSplit_eq l tid pre rv post hl
    apply adjustPosition_sorted
    · exact hs.sublist ((List.sublist_cons_self (tid, rv) post).append_left pre)
    · intro x hx
      have h1 : RvLe (tid, rv) x := by
        have hpost : List.Pairwise RvLe ((tid, rv) :: post) :=
          hs.sublist (List.sublist_append_right pre _)
        exact (List.pairwise_cons.mp hpost).1 x hx
      have h2 : (tid, if rv > p then p else rv).2 ≤ rv := by
        dsimp only
        split_ifs <;> omega
      exact le_trans h2 h1

lemma rvStep_sorted (l l' : List RvEntry) (h : RvStep l l')
    (hs : List.Pairwise RvLe l) : List.Pairwise RvLe l' := by
  cases h with
  | send tid p => exact sendToReadView_sorted l tid p hs
  | remove tid => exact hs.sublist (List.eraseP_sublist l)

/-- **C7.** Every reachable read-view list is sorted by `rv_psn` in
ascending order, and `send_to_read_view` — the only operation that
inserts an entry or lowers a listed `rv_psn` — re-establishes this order
from any sorted list. -/
theorem read_view_list_sorted (l : List RvEntry) (h : RvReachable l) :
    List.Pairwise RvLe l ∧
    ∀ tid p, List.Pairwise RvLe (sendToReadView l tid p) := by
  have hsorted : List.Pairwise RvLe l := by
    induction h with
    | refl => simp
    | tail _ hstep ih => exact rvStep_sorted _ _ hstep ih
  exact ⟨hsorted, fun tid p => sendToReadView_sorted l tid p hsorted⟩

/-- Witness for C7 at a concretely reached list. -/
theorem read_view_list_sorted_witness :
    RvReachable (sendToReadView (sendToReadView [] 1 5) 2 3) ∧
    (List.Pairwise RvLe (sendToReadView (sendToReadView [] 1 5) 2 3) ∧
     ∀ tid p, List.Pairwise RvLe
       (sendToReadView (sendToReadView (sendToReadView [] 1 5) 2 3) tid p)) := by
  have hreach : RvReachable (sendToReadView (sendToReadView [] 1 5) 2 3) :=
    Relation.ReflTransGen.tail
      (Relation.ReflTransGen.tail Relation.ReflTransGen.refl (RvStep.send [] 1 5))
      (RvStep.send (sendToReadView [] 1 5) 2 3)
  exact ⟨hreach, read_view_list_sorted _ hreach⟩

lemma sendToReadView_perm_not_mem (l : List RvEntry) (tid : Nat) (p : Int)
    (h : rvOf l tid = none) :
    List.Perm (sendToReadView l tid p) ((tid, p) :: l) := by
  unfold sendToReadView
  cases hl : lookupSplit l tid with
  | none => simpa using adjustPosition_perm l (tid, p) []
  | some trip =>
    obtain ⟨pre, v, post⟩ := trip
    unfold rvOf at h
    rw [hl] at h
    simp at h

lemma sendToReadView_perm_mem (l : List RvEntry) (tid : Nat) (p rv : Int)
    (h : rvOf l tid = some rv) :
    ∃ pre post, l = pre ++ (tid, rv) :: post ∧ (∀ x ∈ pre, x.1 ≠ tid) ∧
      List.Perm (sendToReadView l tid p)
        ((tid, if rv > p then p else rv) :: (pre ++ post)) := by
  unfold rvOf at h
  cases hl : lookupSplit l tid with
  | none => rw [hl] at h; simp at h
  | some trip =>
    obtain ⟨pre, v, post⟩ := trip
    rw [hl] at h
    obtain rfl : rv = v := by simp at h; omega
    obtain ⟨hl2, hpre⟩ := lookupSplit_eq l tid pre rv post hl
    refine ⟨pre, post, hl2, hpre, ?_⟩
    unfold sendToReadView
    rw [hl]
    exact adjustPosition_perm pre _ post

lemma sendToReadView_nodup (l : List RvEntry) (tid : Nat) (p : Int)
    (hnd : (l.map Prod.fst).Nodup) :
    ((sendToReadView l tid p).map Prod.fst).Nodup := by
  cases h : rvOf l tid with
  | none =>
    have hp := sendToReadView_perm_not_mem l tid p h
    have hl0 := rvOf_none_lookup l tid h
    refine ((hp.map Prod.fst).nodup_iff).mpr ?_
    simp only [List.map_cons, List.nodup_cons]
    refine ⟨?_, hnd⟩
    intro hc
    obtain ⟨x, hx, hx1⟩ := List.mem_map.mp hc
    exact (lookupSplit_none_iff l tid).mp hl0 x hx hx1
  | some rv =>
    obtain ⟨pre, post, hl2, -, hp⟩ := sendToReadView_perm_mem l tid p rv h
    refine ((hp.map Prod.fst).nodup_iff).mpr ?_
    have hnd2 : ((pre ++ (tid, rv) :: post).map Prod.fst).Nodup := by rw [← hl2]; exact hnd
    have hmid : List.Perm ((pre ++ (tid, rv) :: post).map Prod.fst)
        (((tid, rv) :: (pre ++ post)).map Prod.fst) := List.Perm.map Prod.fst List.perm_middle
    have hnd3 := (hmid.nodup_iff).mp hnd2
    simpa using hnd3

lemma rvOf_sendToReadView_self (l : List RvEntry) (tid : Nat) (p : Int)
    (hnd : (l.map Prod.fst).Nodup) :
    rvOf (sendToReadView l tid p) tid =
      match rvOf l tid with
      | none => some p
      | some rv => some (min rv p) := by
  cases h : rvOf l tid with
  | none =>
    have hp := sendToReadView_perm_not_mem l tid p h
    have hnd' := sendToReadView_nodup l tid p hnd
    rw [rvOf_perm _ _ tid hnd' hp]
    have h0 := rvOf_append_mid [] tid p l (by simp)
    simpa using h0
  | some rv =>
    obtain ⟨pre, post, hl2, hpre, hp⟩ := sendToReadView_perm_mem l tid p rv h
    have hnd' := sendToReadView_nodup l tid p hnd
    rw [rvOf_perm _ _ tid hnd' hp]
    have h0 := rvOf_append_mid [] tid (if rv > p then p else rv) (pre ++ post) (by simp)
    simp only [List.nil_append] at h0
    rw [h0]
    have : (if rv > p then p else rv) = min rv p := by
      split_ifs with hc
      · omega
      · omega
    rw [this]

lemma rvOf_sendToReadView_other (l : List RvEntry) (tid tid' : Nat) (p : Int)
    (hnd : (l.map Prod.fst).Nodup) (hne : ¬ tid' = tid) :
    rvOf (sendToReadView l tid' p) tid = rvOf l tid := by
  cases h : rvOf l tid' with
  | none =>
    have hp := sendToReadView_perm_not_mem l tid' p h
    have hnd' := sendToReadView_nodup l tid' p hnd
    rw [rvOf_perm _ _ tid hnd' hp]
    exact rvOf_cons_ne (tid', p) l tid hne
  | some rv =>
    obtain ⟨pre, post, hl2, hpre, hp⟩ := sendToReadView_perm_mem l tid' p rv h
    have hnd' := sendToReadView_nodup l tid' p hnd
    rw [rvOf_perm _ _ tid hnd' hp]
    have hlperm : List.Perm l ((tid', rv) :: (pre ++ post)) := by
      rw [hl2]; exact List.perm_middle
    rw [rvOf_perm _ _ tid hnd hlperm]
    rw [rvOf_cons_ne (tid', if rv > p then p else rv) (pre ++ post) tid hne,
      rvOf_cons_ne (tid', rv) (pre ++ post) tid hne]

/-- **C10.** `send_to_read_view(txn, p)` sets `rv_psn = p` and inserts
the transaction into the read-view list when it is not yet in a read
view, and otherwise lowers its `rv_psn` to `min(rv_psn, p)`; moreover a
listed `rv_psn` never increases under any further `send_to_read_view`
call (for the same or another transaction), so repeated conflicts can
only deepen the read view. -/
theorem send_to_read_view_semantics (l : List RvEntry) (tid : Nat) (p : Int)
    (hnd : (l.map Prod.fst).Nodup) :
    (rvOf l tid = none →
      rvOf (sendToReadView l tid p) tid = some p ∧
      List.Perm (sendToReadView l tid p) ((tid, p) :: l)) ∧
    (∀ rv, rvOf l tid = some rv →
      rvOf (sendToReadView l tid p) tid = some (min rv p)) ∧
    ((sendToReadView l tid p).map Prod.fst).Nodup ∧
    (∀ rv tid' p', rvOf l tid = some rv →
      ∀ rv', rvOf (sendToReadView l tid' p') tid = some rv' → rv' ≤ rv) := by
  refine ⟨?_, ?_, sendToReadView_nodup l tid p hnd, ?_⟩
  · intro h
    refine ⟨?_, sendToReadView_perm_not_mem l tid p h⟩
    rw [rvOf_sendToReadView_self l tid p hnd, h]
  · intro rv h
    rw [rvOf_sendToReadView_self l tid p hnd, h]
  · intro rv tid' p' h rv' h'
    by_cases he : tid' = tid
    · subst he
      rw [rvOf_sendToReadView_self l tid' p' hnd, h] at h'
      have h2 : min rv p' = rv' := by simpa using h'
      exact h2 ▸ min_le_left rv p'
    · rw [rvOf_sendToReadView_other l tid tid' p' hnd he, h] at h'
      have h2 : rv = rv' := by simpa using h'
      omega

/-- Witness for C10 at a concrete list. -/
theorem send_to_read_view_semantics_witness :
    (([(3, 7), (4, 9)] : List RvEntry).map Prod.fst).Nodup ∧
    ((rvOf [(3, 7), (4, 9)] 4 = none →
        rvOf (sendToReadView [(3, 7), (4, 9)] 4 5) 4 = some 5 ∧
        List.Perm (sendToReadView [(3, 7), (4, 9)] 4 5) ((4, 5) :: [(3, 7), (4, 9)])) ∧
     (∀ rv, rvOf [(3, 7), (4, 9)] 4 = some rv →
        rvOf (sendToReadView [(3, 7), (4, 9)] 4 5) 4 = some (min rv 5)) ∧
     ((sendToReadView [(3, 7), (4, 9)] 4 5).map Prod.fst).Nodup ∧
     (∀ rv tid' p', rvOf [(3, 7), (4, 9)] 4 = some rv →
        ∀ rv', rvOf (sendToReadView [(3, 7), (4, 9)] tid' p') 4 = some rv' → rv' ≤ rv)) :=
  ⟨by decide, send_to_read_view_semantics [(3, 7), (4, 9)] 4 5 (by decide)⟩

/-! ## The garbage-collection step (`memtx_tx_story_gc_step`)

Transcribed from memtx_tx.c:1604-1687 and
`memtx_tx_story_full_unlink_story_gc_step` (memtx_tx.c:1536-1598). -/

/-- `enum memtx_tx_story_status`. -/
inductive GcStatus
  | used | readView | trackGap
deriving DecidableEq, Repr

/-- The per-index data of a story inspected by the GC: whether the story
is the chain head (`newer_story == NULL`), whether it has an older story,
whether the newer story (when present) has an `add_stmt` (is still in
progress), whether the link's `read_gaps` list is non-empty, and the
`in_index` flag. -/
structure GcLink where
  isHead : Bool
  hasOlder : Bool
  newerHasAddStmt : Bool
  gapsNonempty : Bool
  inIndex : Bool
deriving DecidableEq, Repr

/-- The data of a story inspected by one GC step. -/
structure GcStory where
  hasAddStmt : Bool
  hasDelStmt : Bool
  readersNonempty : Bool
  addPsn : Int
  delPsn : Int
  links : List GcLink
deriving DecidableEq, Repr

/-- `lowest_rv_psn` as computed by `memtx_tx_story_gc_step`
(memtx_tx.c:1619-1626): the `rv_psn` of the first entry of the read-view
list, or `txn_next_psn` when the list is empty. -/
def lowestRvPsn (rvList : List RvEntry) (nextPsn : Int) : Int :=
  match rvList with
  | [] => nextPsn
  | e :: _ => e.2

/-- The per-index loop of `memtx_tx_story_gc_step` (memtx_tx.c:1649-1682):
scan the links in index order and return the first retention status. -/
def gcScanLinks : Nat → List GcLink → Option GcStatus
  | _, [] => none
  | i, link :: rest =>
    if link.isHead && link.hasOlder then some .used
    else if !link.isHead && decide (0 < i) && link.newerHasAddStmt then some .used
    else if link.gapsNonempty then some .trackGap
    else gcScanLinks (i + 1) rest

/-- The full classification of `memtx_tx_story_gc_step`: `some status`
means the story is kept with that status, `none` means it is unlinked
and freed. -/
def gcClassify (s : GcStory) (lowest : Int) : Option GcStatus :=
  if s.hasAddStmt || s.hasDelStmt || s.readersNonempty then some .used
  else if decide (lowest ≤ s.addPsn) || decide (lowest ≤ s.delPsn) then some .readView
  else gcScanLinks 0 s.links

/-- Effect of `memtx_tx_story_full_unlink_story_gc_step` on one link. -/
structure GcUnlinkResult where
  physRemoved : Bool
  primaryRefDropped : Bool
deriving DecidableEq, Repr

/-- memtx_tx.c:1539-1597: at a chain head the tuple is removed from the
physical index (and, for the primary index, unreferenced) exactly when
`del_psn > 0` and the link is in the index; elsewhere the story is only
spliced out of the list. -/
def gcUnlinkLink (delPsn : Int) (i : Nat) (link : GcLink) : GcUnlinkResult :=
  if link.isHead then
    (if decide (0 < delPsn) && link.inIndex then ⟨true, decide (i = 0)⟩ else ⟨false, false⟩)
  else ⟨false, false⟩

/-- The per-index loop of `memtx_tx_story_full_unlink_story_gc_step`. -/
def fullUnlinkGcStep (delPsn : Int) : Nat → List GcLink → List GcUnlinkResult
  | _, [] => []
  | i, link :: rest => gcUnlinkLink delPsn i link :: fullUnlinkGcStep delPsn (i + 1) rest

/-- A link retains the story with status `USED` at index `i` (chain head
with an older story, or secondary index whose newer story is still in
progress). -/
abbrev LinkUsed (i : Nat) (link : GcLink) : Prop :=
  (link.isHead = true ∧ link.hasOlder = true) ∨
  (link.isHead = false ∧ 0 < i ∧ link.newerHasAddStmt = true)

/-- A link retains the story for gap tracking. -/
abbrev LinkGap (link : GcLink) : Prop := link.gapsNonempty = true

/-- The spec's retention condition (the disjunction of the claim's cases
(1)-(3)). -/
def GcKeepSpec (s : GcStory) (lowest : Int) : Prop :=
  (s.hasAddStmt = true ∨ s.hasDelStmt = true ∨ s.readersNonempty = true) ∨
  (lowest ≤ s.addPsn ∨ lowest ≤ s.delPsn) ∨
  (∃ j link, s.links.get? j = some link ∧ (LinkUsed j link ∨ LinkGap link))

lemma gcScanLinks_cons (i : Nat) (link : GcLink) (rest : List GcLink) :
    gcScanLinks i (link :: rest) =
      if LinkUsed i link then some .used
      else if LinkGap link then some .trackGap
      else gcScanLinks (i + 1) rest := by
  rcases link with ⟨h, o, n, g, x⟩
  cases h <;> cases o <;> cases n <;> cases g <;>
    by_cases hi : 0 < i <;>
      simp [gcScanLinks, LinkUsed, LinkGap, hi]

lemma gcScanLinks_none_iff (links : List GcLink) (i : Nat) :
    gcScanLinks i links = none ↔
      ∀ j link, links.get? j = some link → ¬ LinkUsed (i + j) link ∧ ¬ LinkGap link := by
  induction links generalizing i with
  | nil => simp [gcScanLinks]
  | cons link rest ih =>
    rw [gcScanLinks_cons]
    split_ifs with hu hg
    · constructor
      · intro h; simp at h
      · intro h
        exact absurd (by simpa using hu) (h 0 link (by simp)).1
    · constructor
      · intro h; simp at h
      · intro h
        exact absurd (by simpa using hg) (h 0 link (by simp)).2
    · rw [ih]
      constructor
      · intro h j link' hj
        cases j with
        | zero =>
          obtain rfl : link = link' := by simpa using hj
          exact ⟨by simpa using hu, by simpa using hg⟩
        | succ j' =>
          have h2 := h j' link' (by simpa using hj)
          have heq : i + 1 + j' = i + (j' + 1) := by omega
          rw [heq] at h2
          exact h2
      · intro h j link' hj
        have h2 := h (j + 1) link' (by simpa using hj)
        have heq : i + (j + 1) = i + 1 + j := by omega
        rw [heq] at h2
        exact h2

/-- First-trigger characterization of the scan result: the status comes
from the first index whose link triggers retention, with the USED checks
taking precedence over the gap check within one index. -/
def ScanFirst (links : List GcLink) (st : GcStatus) : Prop :=
  ∃ j link, links.get? j = some link ∧
    (∀ k, k < j → ∀ link', links.get? k = some link' →
      ¬ LinkUsed k link' ∧ ¬ LinkGap link') ∧
    ((st = .used ∧ LinkUsed j link) ∨
     (st = .trackGap ∧ ¬ LinkUsed j link ∧ LinkGap link))

lemma gcScanLinks_some_iff (links : List GcLink) (i : Nat) (st : GcStatus) :
    gcScanLinks i links = some st ↔
      ∃ j link, links.get? j = some link ∧
        (∀ k, k < j → ∀ link', links.get? k = some link' →
          ¬ LinkUsed (i + k) link' ∧ ¬ LinkGap link') ∧
        ((st = .used ∧ LinkUsed (i + j) link) ∨
         (st = .trackGap ∧ ¬ LinkUsed (i + j) link ∧ LinkGap link)) := by
  induction links generalizing i with
  | nil => simp [gcScanLinks]
  | cons link rest ih =>
    rw [gcScanLinks_cons]
    split_ifs with hu hg
    · constructor
      · intro h
        obtain rfl : GcStatus.used = st := by simpa using h
        exact ⟨0, link, by simp, by omega, Or.inl ⟨rfl, by simpa using hu⟩⟩
      · rintro ⟨j, link', hj, hmin, hst⟩
        cases j with
        | zero =>
          obtain rfl : link = link' := by simpa using hj
          rcases hst with ⟨rfl, -⟩ | ⟨rfl, hnu, -⟩
          · rfl
          · exact absurd (by simpa using hu) hnu
        | succ j' =>
          exact absurd (by simpa using hu) (hmin 0 (by omega) link (by simp)).1
    · constructor
      · intro h
        obtain rfl : GcStatus.trackGap = st := by simpa using h
        exact ⟨0, link, by simp, by omega,
          Or.inr ⟨rfl, by simpa using hu, by simpa using hg⟩⟩
      · rintro ⟨j, link', hj, hmin, hst⟩
        cases j with
        | zero =>
          obtain rfl : link = link' := by simpa using hj
          rcases hst with ⟨rfl, husd⟩ | ⟨rfl, -, -⟩
          · exact absurd husd (by simpa using hu)
          · rfl
        | succ j' =>
          exact absurd (by simpa using hg) (hmin 0 (by omega) link (by simp)).2
    · rw [ih]
      constructor
      · rintro ⟨j, link', hj, hmin, hst⟩
        refine ⟨j + 1, link', by simpa using hj, ?_, ?_⟩
        · intro k hk link'' hk2
          cases k with
          | zero =>
            obtain rfl : link = link'' := by simpa using hk2
            exact ⟨by simpa using hu, by simpa using hg⟩
          | succ k' =>
            have h2 := hmin k' (by omega) link'' (by simpa using hk2)
            have heq : i + 1 + k' = i + (k' + 1) := by omega
            rw [heq] at h2
            exact h2
        · have heq : i + 1 + j = i + (j + 1) := by omega
          rw [← heq]
          exact hst
      · rintro ⟨j, link', hj, hmin, hst⟩
        cases j with
        | zero =>
          obtain rfl : link = link' := by simpa using hj
          rcases hst with ⟨rfl, husd⟩ | ⟨rfl, -, hgp⟩
          · exact absurd husd (by simpa using hu)
          · exact absurd hgp (by simpa using hg)
        | succ j' =>
          refine ⟨j', link', by simpa using hj, ?_, ?_⟩
          · intro k hk link'' hk2
            have h2 := hmin (k + 1) (by omega) link'' (by simpa using hk2)
            have heq : i + (k + 1) = i + 1 + k := by omega
            rw [heq] at h2
            exact h2
          · have heq : i + (j' + 1) = i + 1 + j' := by omega
            rw [← heq]
            exact hst

lemma fullUnlinkGcStep_get (delPsn : Int) (links : List GcLink) (i j : Nat)
    (link : GcLink) (hj : links.get? j = some link) :
    (fullUnlinkGcStep delPsn i links).get? j = some (gcUnlinkLink delPsn (i + j) link) := by
  induction links generalizing i j with
  | nil => simp at hj
  | cons hd rest ih =>
    cases j with
    | zero =>
      obtain rfl : hd = link := by simpa using hj
      simp [fullUnlinkGcStep]
    | succ j' =>
      have h2 := ih (i + 1) j' (by simpa using hj)
      have heq : i + 1 + j' = i + (j' + 1) := by omega
      rw [heq] at h2
      simpa [fullUnlinkGcStep] using h2

/-- The story of the counterexample to the claim's status assignment:
chain head with gap trackers in index 0, chain head with an older story
in index 1. -/
def gcMixedStory : GcStory :=
  ⟨false, false, false, 0, 0,
   [⟨true, false, false, true, true⟩, ⟨true, true, false, false, true⟩]⟩

/-- **C3, counterexample.** The claim assigns status `USED` whenever some
index is a chain head with an older story; the code scans indexes in
order and returns `TRACK_GAP` from index 0's non-empty gap list before
ever looking at index 1's head-with-older link. -/
theorem gc_step_status_counterexample :
    (gcMixedStory.hasAddStmt = false ∧ gcMixedStory.hasDelStmt = false ∧
      gcMixedStory.readersNonempty = false) ∧
    ¬ ((10 : Int) ≤ gcMixedStory.addPsn ∨ (10 : Int) ≤ gcMixedStory.delPsn) ∧
    (∃ link ∈ gcMixedStory.links, link.isHead = true ∧ link.hasOlder = true) ∧
    gcClassify gcMixedStory 10 = some GcStatus.trackGap ∧
    ¬ gcClassify gcMixedStory 10 = some GcStatus.used := by
  refine ⟨by decide, by decide, ?_, by decide, by decide⟩
  exact ⟨⟨true, true, false, false, true⟩, by decide, rfl, rfl⟩

/-- **C3, amended.** One GC step keeps the story exactly when the claim's
conditions (1)-(3) hold: `USED` when it has an `add_stmt`, `del_stmt` or
readers; else `READ_VIEW` when `add_psn ≥ lowest_rv_psn` or
`del_psn ≥ lowest_rv_psn`, where `lowest_rv_psn` is the minimum `rv_psn`
over read-view transactions (the head of the sorted list) or the next
PSN when there are none; else the scan of the indexes decides, taking
the status from the first index that triggers (head-with-older or
secondary in-progress newer story giving `USED`, a non-empty gap list
giving `TRACK_GAP`, checked in that order per index).  Otherwise the
story is unlinked, with the physical `index.replace(tuple → None)` and
the primary dereference happening exactly at chain heads marked deleted
(`del_psn > 0`). -/
theorem gc_step_behavior (s : GcStory) (rvList : List RvEntry) (nextPsn lowest : Int)
    (hs : List.Pairwise RvLe rvList)
    (hhead : ∀ link ∈ s.links, link.isHead = true → link.inIndex = true) :
    ((rvList = [] → lowestRvPsn rvList nextPsn = nextPsn) ∧
     (∀ e ∈ rvList, lowestRvPsn rvList nextPsn ≤ e.2) ∧
     (rvList ≠ [] → ∃ e ∈ rvList, lowestRvPsn rvList nextPsn = e.2)) ∧
    (gcClassify s lowest = none ↔ ¬ GcKeepSpec s lowest) ∧
    ((s.hasAddStmt = true ∨ s.hasDelStmt = true ∨ s.readersNonempty = true) →
      gcClassify s lowest = some GcStatus.used) ∧
    (¬ (s.hasAddStmt = true ∨ s.hasDelStmt = true ∨ s.readersNonempty = true) →
      (lowest ≤ s.addPsn ∨ lowest ≤ s.delPsn) →
      gcClassify s lowest = some GcStatus.readView) ∧
    (¬ (s.hasAddStmt = true ∨ s.hasDelStmt = true ∨ s.readersNonempty = true) →
      ¬ (lowest ≤ s.addPsn ∨ lowest ≤ s.delPsn) →
      ∀ st, gcClassify s lowest = some st ↔ ScanFirst s.links st) ∧
    (∀ j link, s.links.get? j = some link →
      (fullUnlinkGcStep s.delPsn 0 s.links).get? j =
        some (gcUnlinkLink s.delPsn j link) ∧
      ((gcUnlinkLink s.delPsn j link).physRemoved = true ↔
        link.isHead = true ∧ 0 < s.delPsn) ∧
      ((gcUnlinkLink s.delPsn j link).primaryRefDropped = true ↔
        link.isHead = true ∧ 0 < s.delPsn ∧ j = 0)) := by
  refine ⟨?_, ?_, ?_, ?_, ?_, ?_⟩
  · refine ⟨fun h => by rw [h]; rfl, ?_, ?_⟩
    · intro e he
      cases rvList with
      | nil => simp at he
      | cons hd tl =>
        rcases List.mem_cons.mp he with rfl | he
        · exact le_refl _
        · exact (List.pairwise_cons.mp hs).1 e he
    · intro h
      cases rvList with
      | nil => exact absurd rfl h
      | cons hd tl => exact ⟨hd, List.mem_cons_self hd tl, rfl⟩
  · unfold gcClassify GcKeepSpec
    split_ifs with h1 h2
    · constructor
      · intro h; simp at h
      · intro hng
        rcases Bool.or_eq_true _ _ |>.mp h1 with hc | hc
        · rcases Bool.or_eq_true _ _ |>.mp hc with hc | hc
          · exact hng (Or.inl (Or.inl hc))
          · exact hng (Or.inl (Or.inr (Or.inl hc)))
        · exact hng (Or.inl (Or.inr (Or.inr hc)))
    · constructor
      · intro h; simp at h
      · intro hng
        rcases Bool.or_eq_true _ _ |>.mp h2 with hc | hc
        · exact hng (Or.inr (Or.inl (Or.inl (by simpa using hc))))
        · exact hng (Or.inr (Or.inl (Or.inr (by simpa using hc))))
    · rw [gcScanLinks_none_iff]
      constructor
      · intro h hk
        rcases hk with hk | hk | hk
        · rcases hk with hk | hk | hk <;> simp [hk] at h1
        · rcases hk with hk | hk <;> simp [hk] at h2
        · obtain ⟨j, link, hj, htrig⟩ := hk
          have h3 := h j link hj
          simp only [Nat.zero_add] at h3
          rcases htrig with htrig | htrig
          · exact h3.1 htrig
          · exact h3.2 htrig
      · intro h j link hj
        simp only [Nat.zero_add]
        constructor
        · intro hc; exact h (Or.inr (Or.inr ⟨j, link, hj, Or.inl hc⟩))
        · intro hc; exact h (Or.inr (Or.inr ⟨j, link, hj, Or.inr hc⟩))
  · intro h
    unfold gcClassify
    have h1 : (s.hasAddStmt || s.hasDelStmt || s.readersNonempty) = true := by
      rcases h with h | h | h <;> simp [h]
    rw [if_pos h1]
  · intro h hlow
    unfold gcClassify
    have h1 : ¬ (s.hasAddStmt || s.hasDelStmt || s.readersNonempty) = true := by
      intro hc
      rcases Bool.or_eq_true _ _ |>.mp hc with hc | hc
      · rcases Bool.or_eq_true _ _ |>.mp hc with hc | hc
        · exact h (Or.inl hc)
        · exact h (Or.inr (Or.inl hc))
      · exact h (Or.inr (Or.inr hc))
    have h2 : (decide (lowest ≤ s.addPsn) || decide (lowest ≤ s.delPsn)) = true := by
      rcases hlow with hlow | hlow <;> simp [hlow]
    rw [if_neg h1, if_pos h2]
  · intro h hlow st
    unfold gcClassify
    have h1 : ¬ (s.hasAddStmt || s.hasDelStmt || s.readersNonempty) = true := by
      intro hc
      rcases Bool.or_eq_true _ _ |>.mp hc with hc | hc
      · rcases Bool.or_eq_true _ _ |>.mp hc with hc | hc
        · exact h (Or.inl hc)
        · exact h (Or.inr (Or.inl hc))
      · exact h (Or.inr (Or.inr hc))
    have h2 : ¬ (decide (lowest ≤ s.addPsn) || decide (lowest ≤ s.delPsn)) = true := by
      intro hc
      rcases Bool.or_eq_true _ _ |>.mp hc with hc | hc
      · exact hlow (Or.inl (by simpa using hc))
      · exact hlow (Or.inr (by simpa using hc))
    rw [if_neg h1, if_neg h2, gcScanLinks_some_iff]
    unfold ScanFirst
    simp only [Nat.zero_add]
  · intro j link hj
    have hget := fullUnlinkGcStep_get s.delPsn s.links 0 j link hj
    rw [Nat.zero_add] at hget
    refine ⟨hget, ?_, ?_⟩
    · unfold gcUnlinkLink
      cases hh : link.isHead with
      | false => simp [hh]
      | true =>
        have hin := hhead link (List.get?_mem hj) hh
        by_cases hd : 0 < s.delPsn
        · simp [hh, hin, hd]
        · simp [hh, hin, hd]
    · unfold gcUnlinkLink
      cases hh : link.isHead with
      | false => simp [hh]
      | true =>
        have hin := hhead link (List.get?_mem hj) hh
        by_cases hd : 0 < s.delPsn
        · simp [hh, hin, hd]
        · simp [hh, hin, hd]

/-- Witness for the amended C3 at a concrete story and read-view list. -/
theorem gc_step_behavior_witness :
    List.Pairwise RvLe [(1, 4), (2, 6)] ∧
    (∀ link ∈ gcMixedStory.links, link.isHead = true → link.inIndex = true) ∧
    (((([(1, 4), (2, 6)] : List RvEntry) = [] →
        lowestRvPsn [(1, 4), (2, 6)] 9 = 9) ∧
      (∀ e ∈ ([(1, 4), (2, 6)] : List RvEntry), lowestRvPsn [(1, 4), (2, 6)] 9 ≤ e.2) ∧
      (([(1, 4), (2, 6)] : List RvEntry) ≠ [] →
        ∃ e ∈ ([(1, 4), (2, 6)] : List RvEntry), lowestRvPsn [(1, 4), (2, 6)] 9 = e.2)) ∧
     (gcClassify gcMixedStory 10 = none ↔ ¬ GcKeepSpec gcMixedStory 10) ∧
     ((gcMixedStory.hasAddStmt = true ∨ gcMixedStory.hasDelStmt = true ∨
        gcMixedStory.readersNonempty = true) →
       gcClassify gcMixedStory 10 = some GcStatus.used) ∧
     (¬ (gcMixedStory.hasAddStmt = true ∨ gcMixedStory.hasDelStmt = true ∨
        gcMixedStory.readersNonempty = true) →
       ((10 : Int) ≤ gcMixedStory.addPsn ∨ (10 : Int) ≤ gcMixedStory.delPsn) →
       gcClassify gcMixedStory 10 = some GcStatus.readView) ∧
     (¬ (gcMixedStory.hasAddStmt = true ∨ gcMixedStory.hasDelStmt = true ∨
        gcMixedStory.readersNonempty = true) →
       ¬ ((10 : Int) ≤ gcMixedStory.addPsn ∨ (10 : Int) ≤ gcMixedStory.delPsn) →
       ∀ st, gcClassify gcMixedStory 10 = some st ↔ ScanFirst gcMixedStory.links st) ∧
     (∀ j link, gcMixedStory.links.get? j = some link →
       (fullUnlinkGcStep gcMixedStory.delPsn 0 gcMixedStory.links).get? j =
         some (gcUnlinkLink gcMixedStory.delPsn j link) ∧
       ((gcUnlinkLink gcMixedStory.delPsn j link).physRemoved = true ↔
         link.isHead = true ∧ 0 < gcMixedStory.delPsn) ∧
       ((gcUnlinkLink gcMixedStory.delPsn j link).primaryRefDropped = true ↔
         link.isHead = true ∧ 0 < gcMixedStory.delPsn ∧ j = 0))) :=
  ⟨by decide, by decide,
   gc_step_behavior gcMixedStory [(1, 4), (2, 6)] 9 10 (by decide) (by decide)⟩

/-! ## Rollback of an added story (`memtx_tx_history_rollback_added_story`)

Transcribed from memtx_tx.c:2425-2503.  Statements and stories are
identified by numeric ids; the state collects exactly the fields the
function reads and writes. -/

/-- Split a chain (list of story ids) at the first occurrence of `sid`. -/
def splitAtId : List Nat → Nat → Option (List Nat × List Nat)
  | [], _ => none
  | x :: rest, sid =>
    if x = sid then some ([], rest)
    else (splitAtId rest sid).map (fun p => (x :: p.1, p.2))

/-- The sinking loop of `memtx_tx_history_rollback_added_story`
(memtx_tx.c:2493-2501): repeatedly reorder the story with its older
neighbour until it has none, i.e. move it to the tail of the chain. -/
def sinkToEnd (sid : Nat) (chain : List Nat) : List Nat :=
  match splitAtId chain sid with
  | none => chain
  | some (pre, post) => pre ++ post ++ [sid]

/-- The state touched by `memtx_tx_history_rollback_added_story`:
`add_story`'s deleter list, psns and statement link, the optional
`del_story`'s deleter list and `del_psn`, the `del_story` pointers of
all statements, `add_story`'s reader list, the transactions aborted so
far, and the per-index chains containing the added story. -/
structure RbState where
  addDelList : List Nat
  addPsn : Int
  addStmt : Option Nat
  addDelPsn : Int
  delDelList : List Nat
  delDelPsn : Int
  stmtDelStory : Nat → Option Nat
  readers : List Nat
  aborted : List Nat
  chains : List (List Nat)

/-- `memtx_tx_history_rollback_added_story` (memtx_tx.c:2425-2503):
if the statement's transaction was prepared (`psn != 0`), drain the
added story's deleter list relinking every deleter to the statement's
`del_story` (or to nothing), reset `add_psn` (and the del story's
`del_psn`), and abort all readers of the added story; in all cases
unlink the statement from both stories, sink the story to the tail of
every chain and stamp `del_psn = MEMTX_TX_ROLLBACKED_PSN`. -/
def rollbackAddedStory (st : RbState) (selfStmt sid : Nat) (delStoryId : Option Nat)
    (txnPsn : Int) : RbState :=
  let st1 :=
    if txnPsn ≠ 0 then
      { st with
        addDelList := [],
        stmtDelStory := fun n =>
          if n ∈ st.addDelList then delStoryId else st.stmtDelStory n,
        delDelList :=
          if delStoryId.isSome then st.addDelList.reverse ++ st.delDelList
          else st.delDelList,
        addPsn := 0,
        delDelPsn := if delStoryId.isSome then 0 else st.delDelPsn,
        aborted := st.aborted ++ st.readers }
    else st
  let st2 :=
    { st1 with
      addStmt := none,
      stmtDelStory := fun n => if n = selfStmt then none else st1.stmtDelStory n,
      delDelList :=
        if delStoryId.isSome then st1.delDelList.eraseP (fun n => n = selfStmt)
        else st1.delDelList }
  { st2 with
    chains := st2.chains.map (sinkToEnd sid),
    addDelPsn := ROLLBACKED_PSN }

lemma splitAtId_eq (chain : List Nat) (sid : Nat) (pre post : List Nat)
    (h : splitAtId chain sid = some (pre, post)) : chain = pre ++ sid :: post := by
  induction chain generalizing pre with
  | nil => simp [splitAtId] at h
  | cons x rest ih =>
    simp only [splitAtId] at h
    split_ifs at h with hx
    · obtain ⟨rfl, rfl⟩ : ([] : List Nat) = pre ∧ rest = post := by simpa using h
      simp [hx]
    · rcases Option.map_eq_some'.mp h with ⟨p, hrec, heq⟩
      obtain ⟨pre', post'⟩ := p
      obtain ⟨rfl, rfl⟩ : x :: pre' = pre ∧ post' = post := by simpa using heq
      simp [ih pre' hrec]

lemma splitAtId_of_mem (chain : List Nat) (sid : Nat) (h : sid ∈ chain) :
    ∃ pre post, splitAtId chain sid = some (pre, post) := by
  induction chain with
  | nil => simp at h
  | cons x rest ih =>
    by_cases hx : x = sid
    · exact ⟨[], rest, by simp [splitAtId, hx]⟩
    · rcases List.mem_cons.mp h with rfl | h2
      · exact absurd rfl hx
      · obtain ⟨pre, post, hrec⟩ := ih h2
        exact ⟨x :: pre, post, by simp [splitAtId, hx, hrec]⟩

lemma sinkToEnd_eq (sid : Nat) (chain pre post : List Nat)
    (hs : splitAtId chain sid = some (pre, post)) :
    sinkToEnd sid chain = pre ++ post ++ [sid] := by
  unfold sinkToEnd
  rw [hs]

lemma sinkToEnd_last (sid : Nat) (chain : List Nat) (h : sid ∈ chain) :
    (sinkToEnd sid chain).getLast? = some sid := by
  obtain ⟨pre, post, hs⟩ := splitAtId_of_mem chain sid h
  rw [sinkToEnd_eq sid chain pre post hs]
  rw [show pre ++ post ++ [sid] = (pre ++ post) ++ [sid] by simp]
  exact List.getLast?_concat _

lemma sinkToEnd_perm (sid : Nat) (chain : List Nat) (h : sid ∈ chain) :
    List.Perm (sinkToEnd sid chain) chain := by
  obtain ⟨pre, post, hs⟩ := splitAtId_of_mem chain sid h
  have hc := splitAtId_eq chain sid pre post hs
  rw [sinkToEnd_eq sid chain pre post hs, hc]
  have h1 : List.Perm ((pre ++ post) ++ [sid]) (sid :: (pre ++ post)) :=
    List.perm_append_singleton sid (pre ++ post)
  have h2 : List.Perm (pre ++ sid :: post) (sid :: (pre ++ post)) := List.perm_middle
  have h3 : List.Perm (pre ++ post ++ [sid]) ((pre ++ post) ++ [sid]) := by
    rw [List.append_assoc]
  exact (h3.trans h1).trans h2.symm

/-- **C5.** Rolling back a statement with an added story: when the
transaction had a PSN, the deleters relinked during prepare are moved
back to the statement's `del_story` (or dropped when there is none),
`add_psn` and the del story's `del_psn` are reset to 0, and every reader
of the added story is aborted; in all cases the story is sunk to the
tail of every chain (keeping the same stories) and stamped
`del_psn = ROLLBACKED_PSN`, a value strictly below every legitimate PSN,
after which every visibility query on the story finds the tuple
invisible, for every transaction, read view and `allow_prepared`. -/
theorem rollback_added_story_spec (st : RbState) (selfStmt sid : Nat)
    (delStoryId : Option Nat) (txnPsn : Int)
    (hunprep : txnPsn = 0 → st.addPsn = 0 ∧ st.addDelList = []) :
    (txnPsn ≠ 0 →
      (∀ m ∈ st.addDelList, m ≠ selfStmt →
        (rollbackAddedStory st selfStmt sid delStoryId txnPsn).stmtDelStory m =
          delStoryId) ∧
      (∀ d, delStoryId = some d → ∀ m ∈ st.addDelList, m ≠ selfStmt →
        m ∈ (rollbackAddedStory st selfStmt sid delStoryId txnPsn).delDelList) ∧
      (∀ d, delStoryId = some d →
        (rollbackAddedStory st selfStmt sid delStoryId txnPsn).delDelPsn = 0) ∧
      (rollbackAddedStory st selfStmt sid delStoryId txnPsn).aborted =
        st.aborted ++ st.readers) ∧
    (rollbackAddedStory st selfStmt sid delStoryId txnPsn).addPsn = 0 ∧
    (rollbackAddedStory st selfStmt sid delStoryId txnPsn).addDelList = [] ∧
    (rollbackAddedStory st selfStmt sid delStoryId txnPsn).addStmt = none ∧
    (rollbackAddedStory st selfStmt sid delStoryId txnPsn).addDelPsn =
      ROLLBACKED_PSN ∧
    (∀ p : Int, TXN_MIN_PSN ≤ p → ROLLBACKED_PSN < p) ∧
    (rollbackAddedStory st selfStmt sid delStoryId txnPsn).chains =
      st.chains.map (sinkToEnd sid) ∧
    (∀ chain ∈ st.chains, sid ∈ chain →
      (sinkToEnd sid chain).getLast? = some sid ∧
      List.Perm (sinkToEnd sid chain) chain) ∧
    (∀ (tupleV : Nat) (stmtTxn : Nat → VStmt) (txn : Option VTxn) (ok : Bool),
      (∀ t, txn = some t → t.rv_psn = 0 ∨ TXN_MIN_PSN ≤ t.rv_psn) →
      findVisibleTuple
        [⟨tupleV,
          ((rollbackAddedStory st selfStmt sid delStoryId txnPsn).addStmt).map stmtTxn,
          (rollbackAddedStory st selfStmt sid delStoryId txnPsn).addPsn,
          (rollbackAddedStory st selfStmt sid delStoryId txnPsn).addDelList.map stmtTxn,
          (rollbackAddedStory st selfStmt sid delStoryId txnPsn).addDelPsn⟩]
        txn ok = none) := by
  have hDelList : (rollbackAddedStory st selfStmt sid delStoryId txnPsn).addDelList = [] := by
    unfold rollbackAddedStory
    by_cases hp : txnPsn ≠ 0
    · simp [hp]
    · simp [hp, (hunprep (by omega)).2]
  have hAddPsn : (rollbackAddedStory st selfStmt sid delStoryId txnPsn).addPsn = 0 := by
    unfold rollbackAddedStory
    by_cases hp : txnPsn ≠ 0
    · simp [hp]
    · simp [hp, (hunprep (by omega)).1]
  refine ⟨?_, hAddPsn, hDelList, ?_, ?_, ?_, ?_, ?_, ?_⟩
  · intro hp
    refine ⟨?_, ?_, ?_, ?_⟩
    · intro m hm hne
      unfold rollbackAddedStory
      simp [hp, hne, hm]
    · intro d hd m hm hne
      have hfinal : (rollbackAddedStory st selfStmt sid delStoryId txnPsn).delDelList =
          (st.addDelList.reverse ++ st.delDelList).eraseP (fun n => n = selfStmt) := by
        unfold rollbackAddedStory
        simp [hp, hd]
      rw [hfinal]
      have hmem : m ∈ st.addDelList.reverse ++ st.delDelList :=
        List.mem_append.mpr (Or.inl (List.mem_reverse.mpr hm))
      exact (List.mem_eraseP_of_neg (by simpa using hne)).mpr hmem
    · intro d hd
      unfold rollbackAddedStory
      simp [hp, hd]
    · unfold rollbackAddedStory
      simp [hp]
  · unfold rollbackAddedStory
    by_cases hp : txnPsn ≠ 0 <;> simp [hp]
  · unfold rollbackAddedStory
    by_cases hp : txnPsn ≠ 0 <;> simp [hp]
  · intro p hple
    unfold TXN_MIN_PSN at hple
    unfold ROLLBACKED_PSN
    omega
  · unfold rollbackAddedStory
    by_cases hp : txnPsn ≠ 0 <;> simp [hp]
  · intro chain hc hsid
    exact ⟨sinkToEnd_last sid chain hsid, sinkToEnd_perm sid chain hsid⟩
  · intro tupleV stmtTxn txn ok hrv
    rw [hDelList, hAddPsn]
    have hStamp : (rollbackAddedStory st selfStmt sid delStoryId txnPsn).addDelPsn =
        ROLLBACKED_PSN := by
      unfold rollbackAddedStory
      by_cases hp : txnPsn ≠ 0 <;> simp [hp]
    rw [hStamp]
    have hrvBound : ROLLBACKED_PSN < rvPsnOf txn := by
      cases txn with
      | none =>
        show ROLLBACKED_PSN < INT64_MAX
        unfold ROLLBACKED_PSN INT64_MAX
        omega
      | some t =>
        have hred : rvPsnOf (some t) =
            if t.rv_psn ≠ 0 then t.rv_psn else INT64_MAX := rfl
        rw [hred]
        rcases hrv t rfl with h0 | hge
        · rw [if_neg (by simp [h0])]
          unfold ROLLBACKED_PSN INT64_MAX
          omega
        · unfold TXN_MIN_PSN at hge
          split_ifs with hz
          · unfold ROLLBACKED_PSN; omega
          · unfold ROLLBACKED_PSN INT64_MAX; omega
    have hne0 : ROLLBACKED_PSN ≠ (0 : Int) := by unfold ROLLBACKED_PSN; omega
    have hdel : deleteIsVisible
        ⟨tupleV,
          ((rollbackAddedStory st selfStmt sid delStoryId txnPsn).addStmt).map stmtTxn,
          0, [], ROLLBACKED_PSN⟩ txn ok = true := by
      unfold deleteIsVisible
      simp only [List.any_nil]
      cases ok with
      | true => simp [hrvBound, hne0]
      | false => simp [hrvBound, hne0]
    simp only [List.map_nil, findVisibleTuple]
    rw [if_pos hdel]

/-- A concrete pre-rollback state: statement 1 (prepared at PSN 5) added
story 3 replacing story 40; statement 7 is an in-progress deleter of
story 3; transaction 9 has read story 3. -/
def rbExample : RbState :=
  { addDelList := [7], addPsn := 5, addStmt := some 1, addDelPsn := 0,
    delDelList := [1], delDelPsn := 5, stmtDelStory := fun _ => some 3,
    readers := [9], aborted := [], chains := [[3, 8], [5, 3]] }

/-- Witness for C5 at the concrete state `rbExample`. -/
theorem rollback_added_story_spec_witness :
    ((5 : Int) = 0 → rbExample.addPsn = 0 ∧ rbExample.addDelList = []) ∧
    (((5 : Int) ≠ 0 →
       (∀ m ∈ rbExample.addDelList, m ≠ 1 →
         (rollbackAddedStory rbExample 1 3 (some 40) 5).stmtDelStory m = some 40) ∧
       (∀ d, (some 40 : Option Nat) = some d → ∀ m ∈ rbExample.addDelList, m ≠ 1 →
         m ∈ (rollbackAddedStory rbExample 1 3 (some 40) 5).delDelList) ∧
       (∀ d, (some 40 : Option Nat) = some d →
         (rollbackAddedStory rbExample 1 3 (some 40) 5).delDelPsn = 0) ∧
       (rollbackAddedStory rbExample 1 3 (some 40) 5).aborted =
         rbExample.aborted ++ rbExample.readers) ∧
     (rollbackAddedStory rbExample 1 3 (some 40) 5).addPsn = 0 ∧
     (rollbackAddedStory rbExample 1 3 (some 40) 5).addDelList = [] ∧
     (rollbackAddedStory rbExample 1 3 (some 40) 5).addStmt = none ∧
     (rollbackAddedStory rbExample 1 3 (some 40) 5).addDelPsn = ROLLBACKED_PSN ∧
     (∀ p : Int, TXN_MIN_PSN ≤ p → ROLLBACKED_PSN < p) ∧
     (rollbackAddedStory rbExample 1 3 (some 40) 5).chains =
       rbExample.chains.map (sinkToEnd 3) ∧
     (∀ chain ∈ rbExample.chains, 3 ∈ chain →
       (sinkToEnd 3 chain).getLast? = some 3 ∧
       List.Perm (sinkToEnd 3 chain) chain) ∧
     (∀ (tupleV : Nat) (stmtTxn : Nat → VStmt) (txn : Option VTxn) (ok : Bool),
       (∀ t, txn = some t → t.rv_psn = 0 ∨ TXN_MIN_PSN ≤ t.rv_psn) →
       findVisibleTuple
         [⟨tupleV,
           ((rollbackAddedStory rbExample 1 3 (some 40) 5).addStmt).map stmtTxn,
           (rollbackAddedStory rbExample 1 3 (some 40) 5).addPsn,
           (rollbackAddedStory rbExample 1 3 (some 40) 5).addDelList.map stmtTxn,
           (rollbackAddedStory rbExample 1 3 (some 40) 5).addDelPsn⟩]
         txn ok = none)) :=
  ⟨by decide, rollback_added_story_spec rbExample 1 3 (some 40) 5 (by decide)⟩

/-! ## Snapshot cleaner (`memtx_tx_snapshot_cleaner_create` / `_clarify_slow`)

Transcribed from memtx_tx.c:3920-3987.  The index's story population is
modelled as the list of its chains (each chain head first, as reached by
the `in_index` filter of `memtx_tx_foreach_in_index_tuple_story`); for a
null reader `memtx_tx_tuple_clarify_impl` with `is_prepared_ok = true`
reduces to the `find_visible_tuple` walk (no read tracking happens for a
null transaction). -/

/-- The cleaner entry built for one chain: skip the chain when the
clarified tuple equals the head's tuple, else map the head tuple to the
clarified tuple (possibly `none`). -/
def cleanerEntryOf : List VStory → Option (Nat × Option Nat)
  | [] => none
  | s :: rest =>
    if findVisibleTuple (s :: rest) none true = some s.tuple then none
    else some (s.tuple, findVisibleTuple (s :: rest) none true)

/-- `memtx_tx_snapshot_cleaner_create`: the hash from dirty chain-head
tuples to their clarified versions. -/
def cleanerEntries (chains : List (List VStory)) : List (Nat × Option Nat) :=
  chains.filterMap cleanerEntryOf

/-- `memtx_tx_snapshot_clarify_slow`: look the tuple up in the cleaner
hash; a tuple outside the hash is returned unchanged. -/
def snapshotClarify (entries : List (Nat × Option Nat)) (t : Nat) : Option Nat :=
  match entries.find? (fun e => e.1 = t) with
  | none => some t
  | some e => e.2

/-- The clarification step lifted to an optional tuple (the cleaner maps
a dirty tuple to `None` when no version is visible). -/
def snapshotClarifyStep (entries : List (Nat × Option Nat)) : Option Nat → Option Nat
  | none => none
  | some t => snapshotClarify entries t

lemma findVisibleTuple_mem (chain : List VStory) (txn : Option VTxn) (ok : Bool)
    (u : Nat) (h : findVisibleTuple chain txn ok = some u) :
    u ∈ chain.map VStory.tuple := by
  induction chain with
  | nil => simp [findVisibleTuple] at h
  | cons s rest ih =>
    simp only [findVisibleTuple] at h
    split_ifs at h with h1 h2
    · have h3 : s.tuple = u := by simpa using h
      rw [← h3]
      simp
    · simp only [List.map_cons]
      exact List.mem_cons_of_mem _ (ih h)

lemma cleanerEntryOf_eq_some (ch : List VStory) (t : Nat) (v : Option Nat) :
    cleanerEntryOf ch = some (t, v) ↔
      ∃ s rest, ch = s :: rest ∧ t = s.tuple ∧
        v = findVisibleTuple ch none true ∧ v ≠ some s.tuple := by
  cases ch with
  | nil => simp [cleanerEntryOf]
  | cons s rest =>
    simp only [cleanerEntryOf]
    split_ifs with hcl
    · constructor
      · intro h; simp at h
      · rintro ⟨s', rest', heq, rfl, rfl, hne⟩
        obtain ⟨rfl, rfl⟩ : s = s' ∧ rest = rest' := by simpa using heq
        exact absurd hcl hne
    · constructor
      · intro h
        obtain ⟨rfl, rfl⟩ : s.tuple = t ∧ findVisibleTuple (s :: rest) none true = v := by
          simpa using h
        exact ⟨s, rest, rfl, rfl, rfl, hcl⟩
      · rintro ⟨s', rest', heq, rfl, rfl, hne⟩
        obtain ⟨rfl, rfl⟩ : s = s' ∧ rest = rest' := by simpa using heq
        rfl

lemma cleanerEntries_mem (chains : List (List VStory)) (t : Nat) (v : Option Nat) :
    (t, v) ∈ cleanerEntries chains ↔
      ∃ ch ∈ chains, ∃ s rest, ch = s :: rest ∧ t = s.tuple ∧
        v = findVisibleTuple ch none true ∧ v ≠ some s.tuple := by
  unfold cleanerEntries
  rw [List.mem_filterMap]
  constructor
  · rintro ⟨ch, hch, hentry⟩
    exact ⟨ch, hch, (cleanerEntryOf_eq_some ch t v).mp hentry⟩
  · rintro ⟨ch, hch, hdata⟩
    exact ⟨ch, hch, (cleanerEntryOf_eq_some ch t v).mpr hdata⟩

lemma cleaner_range_not_key (chains : List (List VStory))
    (hdisj : (chains.map (List.map VStory.tuple)).Pairwise List.Disjoint)
    (e : Nat × Option Nat) (he : e ∈ cleanerEntries chains) (u : Nat)
    (hu : e.2 = some u) :
    u ∉ (cleanerEntries chains).map Prod.fst := by
  intro hkey
  obtain ⟨e', he', he1'⟩ := List.mem_map.mp hkey
  obtain ⟨ch, hch, s, rest, hcheq, ht, hv, hne⟩ :=
    (cleanerEntries_mem chains e.1 e.2).mp (by simpa using he)
  obtain ⟨ch', hch', s', rest', hcheq', ht', hv', hne'⟩ :=
    (cleanerEntries_mem chains e'.1 e'.2).mp (by simpa using he')
  subst hcheq
  subst hcheq'
  rw [hu] at hv
  have humem : u ∈ (s :: rest).map VStory.tuple :=
    findVisibleTuple_mem (s :: rest) none true u hv.symm
  have hune : u ≠ s.tuple := by
    intro hc
    rw [hu, hc] at hne
    exact hne rfl
  have hueq : u = s'.tuple := by rw [← he1', ht']
  by_cases hmaps : (s :: rest).map VStory.tuple = (s' :: rest').map VStory.tuple
  · have hheads : s.tuple = s'.tuple := by
      have hh := congrArg List.head? hmaps
      simpa using hh
    exact hune (by rw [hueq, hheads])
  · have hdisj2 : List.Disjoint ((s :: rest).map VStory.tuple)
        ((s' :: rest').map VStory.tuple) := by
      have hsymm : Symmetric (fun l₁ l₂ : List Nat => List.Disjoint l₁ l₂) :=
        fun a b hab => List.disjoint_comm.mp hab
      exact List.Pairwise.forall hsymm hdisj
        (List.mem_map_of_mem _ hch) (List.mem_map_of_mem _ hch')
        (by simpa using hmaps)
    have humem' : u ∈ (s' :: rest').map VStory.tuple := by
      rw [hueq]
      simp
    exact hdisj2 humem humem'

/-- **C9.** The snapshot-cleaner map sends each dirty chain-head tuple
whose clarified value differs from itself to the tuple visible to a null
reader with `allow_prepared = true` (or to `None`); a tuple outside the
map is returned unchanged by `snapshot_clarify`; no value in the map's
range is itself a key of the map, and consequently `snapshot_clarify`
is idempotent.  The hypothesis states that distinct chains of the index
have disjoint tuple sets (each tuple has at most one story). -/
theorem snapshot_cleaner_idempotent (chains : List (List VStory))
    (hdisj : (chains.map (List.map VStory.tuple)).Pairwise List.Disjoint) :
    (∀ t v, (t, v) ∈ cleanerEntries chains ↔
       ∃ ch ∈ chains, ∃ s rest, ch = s :: rest ∧ t = s.tuple ∧
         v = findVisibleTuple ch none true ∧ v ≠ some s.tuple) ∧
    (∀ t, t ∉ (cleanerEntries chains).map Prod.fst →
       snapshotClarify (cleanerEntries chains) t = some t) ∧
    (∀ e ∈ cleanerEntries chains, ∀ u, e.2 = some u →
       u ∉ (cleanerEntries chains).map Prod.fst) ∧
    (∀ o, snapshotClarifyStep (cleanerEntries chains)
        (snapshotClarifyStep (cleanerEntries chains) o) =
      snapshotClarifyStep (cleanerEntries chains) o) := by
  refine ⟨cleanerEntries_mem chains, ?_, cleaner_range_not_key chains hdisj, ?_⟩
  · intro t ht
    unfold snapshotClarify
    have hfind : (cleanerEntries chains).find? (fun e => e.1 = t) = none := by
      rw [List.find?_eq_none]
      intro x hx
      simp only [decide_eq_true_eq]
      intro hc
      exact ht (List.mem_map.mpr ⟨x, hx, hc⟩)
    rw [hfind]
  · intro o
    cases o with
    | none => rfl
    | some t =>
      show snapshotClarifyStep _ (snapshotClarify _ t) = snapshotClarify _ t
      cases hf : (cleanerEntries chains).find? (fun e => e.1 = t) with
      | none =>
        have h1 : snapshotClarify (cleanerEntries chains) t = some t := by
          unfold snapshotClarify
          rw [hf]
        rw [h1]
        show snapshotClarify _ t = some t
        rw [h1]
      | some e =>
        have h1 : snapshotClarify (cleanerEntries chains) t = e.2 := by
          unfold snapshotClarify
          rw [hf]
        rw [h1]
        cases hu : e.2 with
        | none => rfl
        | some u =>
          have hmem := List.mem_of_find?_eq_some hf
          have hnk := cleaner_range_not_key chains hdisj e hmem u hu
          show snapshotClarify _ u = some u
          unfold snapshotClarify
          have hfind : (cleanerEntries chains).find? (fun e2 => e2.1 = u) = none := by
            rw [List.find?_eq_none]
            intro x hx
            simp only [decide_eq_true_eq]
            intro hc
            exact hnk (List.mem_map.mpr ⟨x, hx, hc⟩)
          rw [hfind]

/-- Witness for C9 on a concrete pair of chains (a two-story chain whose
head is an in-progress insert over a committed story, and a singleton
committed chain). -/
theorem snapshot_cleaner_idempotent_witness :
    (([[⟨21, some ⟨4⟩, 0, [], 0⟩, ⟨22, none, 0, [], 0⟩],
       [⟨23, none, 0, [], 0⟩]].map (List.map VStory.tuple)).Pairwise List.Disjoint) ∧
    ((∀ t v, (t, v) ∈ cleanerEntries
        [[⟨21, some ⟨4⟩, 0, [], 0⟩, ⟨22, none, 0, [], 0⟩],
         [⟨23, none, 0, [], 0⟩]] ↔
       ∃ ch ∈ [[⟨21, some ⟨4⟩, 0, [], 0⟩, ⟨22, none, 0, [], 0⟩],
               [⟨23, none, 0, [], 0⟩]], ∃ s rest, ch = s :: rest ∧ t = s.tuple ∧
         v = findVisibleTuple ch none true ∧ v ≠ some s.tuple) ∧
     (∀ t, t ∉ (cleanerEntries
        [[⟨21, some ⟨4⟩, 0, [], 0⟩, ⟨22, none, 0, [], 0⟩],
         [⟨23, none, 0, [], 0⟩]]).map Prod.fst →
       snapshotClarify (cleanerEntries
        [[⟨21, some ⟨4⟩, 0, [], 0⟩, ⟨22, none, 0, [], 0⟩],
         [⟨23, none, 0, [], 0⟩]]) t = some t) ∧
     (∀ e ∈ cleanerEntries
        [[⟨21, some ⟨4⟩, 0, [], 0⟩, ⟨22, none, 0, [], 0⟩],
         [⟨23, none, 0, [], 0⟩]], ∀ u, e.2 = some u →
       u ∉ (cleanerEntries
        [[⟨21, some ⟨4⟩, 0, [], 0⟩, ⟨22, none, 0, [], 0⟩],
         [⟨23, none, 0, [], 0⟩]]).map Prod.fst) ∧
     (∀ o, snapshotClarifyStep (cleanerEntries
        [[⟨21, some ⟨4⟩, 0, [], 0⟩, ⟨22, none, 0, [], 0⟩],
         [⟨23, none, 0, [], 0⟩]])
        (snapshotClarifyStep (cleanerEntries
        [[⟨21, some ⟨4⟩, 0, [], 0⟩, ⟨22, none, 0, [], 0⟩],
         [⟨23, none, 0, [], 0⟩]]) o) =
      snapshotClarifyStep (cleanerEntries
        [[⟨21, some ⟨4⟩, 0, [], 0⟩, ⟨22, none, 0, [], 0⟩],
         [⟨23, none, 0, [], 0⟩]]) o)) := by
  have hdisj : (([[⟨21, some ⟨4⟩, 0, [], 0⟩, ⟨22, none, 0, [], 0⟩],
      [⟨23, none, 0, [], 0⟩]] : List (List VStory)).map
        (List.map VStory.tuple)).Pairwise List.Disjoint := by
    show List.Pairwise List.Disjoint [[21, 22], [23]]
    refine List.pairwise_cons.mpr ⟨?_, List.pairwise_singleton _ _⟩
    intro l' hl'
    have hl2 : l' = [23] := by simpa using hl'
    subst hl2
    intro a ha hb
    simp at ha hb
    omega
  exact ⟨hdisj,
    snapshot_cleaner_idempotent
      [[⟨21, some ⟨4⟩, 0, [], 0⟩, ⟨22, none, 0, [], 0⟩],
       [⟨23, none, 0, [], 0⟩]] hdisj⟩

/-! ## Chain / `in_index` invariant (C2)

A story chain of one key in one index, with the physical index entry for
that key.  The transitions are the chain-mutating primitives performed
by `add_stmt`, `prepare_stmt`, `commit_stmt`, `rollback_stmt`, `gc_step`
and `invalidate_space`:
`memtx_tx_story_new` + `memtx_tx_story_link_top` (both modes, with the
physical `index_replace` of the promotion path), `memtx_tx_story_reorder`
away from the head, the two unlink shapes of
`memtx_tx_story_full_unlink_story_gc_step`, PSN stamping, and the chain
destruction of `memtx_tx_invalidate_space`.  `commit_stmt` touches no
chain.  An excluded-key story (`memtx_tx_tuple_key_is_excluded`) gets a
story with `in_index` set by `memtx_tx_story_new` but is never inserted
into the physical index (memtx_tx.c:2263-2271). -/

/-- A story as seen by the chain invariant: its tuple, its `in_index`
flag for this index, whether its key is excluded from the index, and its
`del_psn`. -/
structure CStory where
  tuple : Nat
  inIndex : Bool
  excluded : Bool
  delPsn : Int
deriving DecidableEq, Repr

/-- One story chain (newest first) together with the physical index
entry for the chain's key. -/
structure ChainSt where
  stories : List CStory
  phys : Option Nat
deriving DecidableEq, Repr

/-- The chain-mutating primitives of the manager, with the preconditions
under which the source invokes them (its assertions and call sites). -/
inductive ChainStep : ChainSt → ChainSt → Prop
  /-- Insert into an empty place: `memtx_tx_story_new` + `index_replace`
  + `memtx_tx_story_link_top(new, NULL, idx, true)`
  (memtx_tx.c:2265-2271, 1355-1358). -/
  | insertNew (t : Nat) (c : ChainSt) (hphys : c.phys = none)
      (hempty : c.stories = []) :
      ChainStep c ⟨[⟨t, true, false, 0⟩], some t⟩
  /-- Insert of an excluded-key tuple: `memtx_tx_story_new` only; the
  tuple is never placed in the physical index (memtx_tx.c:2263-2271). -/
  | insertExcluded (t : Nat) (c : ChainSt) (hphys : c.phys = none)
      (hempty : c.stories = []) :
      ChainStep c ⟨[⟨t, true, true, 0⟩], none⟩
  /-- Insert replacing the dirty top story: `index_replace` displaced the
  head's tuple, then `link_top(new, old_top, idx, true)` transfers
  `in_index` (memtx_tx.c:2272-2280, 1386-1390). -/
  | insertReplaceDirty (t : Nat) (s : CStory) (rest : List CStory) (c : ChainSt)
      (hc : c.stories = s :: rest) (hin : s.inIndex = true)
      (hphys : c.phys = some s.tuple) :
      ChainStep c ⟨⟨t, true, false, 0⟩ :: ⟨s.tuple, false, s.excluded, s.delPsn⟩ :: rest,
        some t⟩
  /-- Insert replacing a clean tuple: a story is created for the old
  clean tuple (`memtx_tx_story_new`, becoming the non-head story) and the
  new story is linked above it (memtx_tx.c:2249-2256, 2272-2280). -/
  | insertReplaceClean (t r : Nat) (c : ChainSt) (hempty : c.stories = [])
      (hphys : c.phys = some r) :
      ChainStep c ⟨[⟨t, true, false, 0⟩, ⟨r, false, false, 0⟩], some t⟩
  /-- `memtx_tx_story_link_top` with `is_new_tuple = false` (promotion
  from `memtx_tx_story_reorder` at the head): physical
  `index_replace(old_top.tuple → new_top.tuple)` and `in_index` transfer
  (memtx_tx.c:1372-1399, 1450-1455). -/
  | promote (s1 s2 : CStory) (rest : List CStory) (c : ChainSt)
      (hc : c.stories = s1 :: s2 :: rest) (hin : s1.inIndex = true) :
      ChainStep c ⟨⟨s2.tuple, true, s2.excluded, s2.delPsn⟩ ::
        ⟨s1.tuple, false, s1.excluded, s1.delPsn⟩ :: rest, some s2.tuple⟩
  /-- `memtx_tx_story_reorder` of two adjacent stories away from the
  head: plain relink (memtx_tx.c:1441-1449). -/
  | reorderMid (pre : List CStory) (a b : CStory) (post : List CStory) (c : ChainSt)
      (hc : c.stories = pre ++ a :: b :: post) (hpre : pre ≠ []) :
      ChainStep c ⟨pre ++ b :: a :: post, c.phys⟩
  /-- GC unlink of the sole story of a chain (head with no older story,
  asserted at memtx_tx.c:1549-1560): physical removal iff `del_psn > 0`. -/
  | gcUnlinkLast (s : CStory) (c : ChainSt) (hc : c.stories = [s])
      (hin : s.inIndex = true) :
      ChainStep c ⟨[], if 0 < s.delPsn then none else c.phys⟩
  /-- GC unlink of a non-head story: splice out of the list
  (memtx_tx.c:1587-1596). -/
  | gcUnlinkMid (pre : List CStory) (s : CStory) (post : List CStory) (c : ChainSt)
      (hc : c.stories = pre ++ s :: post) (hpre : pre ≠ []) :
      ChainStep c ⟨pre ++ post, c.phys⟩
  /-- PSN stamping by prepare/rollback: does not touch links, `in_index`
  or the physical index. -/
  | stampDel (pre : List CStory) (s : CStory) (post : List CStory) (v : Int)
      (c : ChainSt) (hc : c.stories = pre ++ s :: post) :
      ChainStep c ⟨pre ++ ⟨s.tuple, s.inIndex, s.excluded, v⟩ :: post, c.phys⟩
  /-- `memtx_tx_invalidate_space` / space deletion: every story of the
  space is destroyed and the index rebound to the DDL owner's visible
  tuple (memtx_tx.c:3293-3349). -/
  | invalidate (c : ChainSt) (p : Option Nat) :
      ChainStep c ⟨[], p⟩

/-- Chain states reachable from an empty chain by manager operations. -/
def ChainReachable (c : ChainSt) : Prop :=
  Relation.ReflTransGen ChainStep ⟨[], none⟩ c

/-- The claim's chain invariant: exactly one story with `in_index`
(the head), and the physical index entry resolves to the head's tuple. -/
def chainInvClaim (c : ChainSt) : Prop :=
  ∀ s rest, c.stories = s :: rest →
    s.inIndex = true ∧ (∀ x ∈ rest, x.inIndex = false) ∧ c.phys = some s.tuple

/-- The amended chain invariant: exactly one story with `in_index` (the
head); for a non-excluded key the physical entry is the head's tuple,
while an excluded-key chain is a degenerate singleton with no physical
entry. -/
def chainInvAmended (c : ChainSt) : Prop :=
  ∀ s rest, c.stories = s :: rest →
    s.inIndex = true ∧ (∀ x ∈ rest, x.inIndex = false ∧ x.excluded = false) ∧
    c.phys = (if s.excluded = true then none else some s.tuple) ∧
    (s.excluded = true → rest = [])

lemma chainStep_inv (c c' : ChainSt) (h : ChainStep c c')
    (hinv : chainInvAmended c) : chainInvAmended c' := by
  cases h with
  | insertNew t c hphys hempty =>
    intro s rest heq
    obtain ⟨rfl, rfl⟩ : (⟨t, true, false, 0⟩ : CStory) = s ∧ ([] : List CStory) = rest := by
      simpa using heq
    simp
  | insertExcluded t c hphys hempty =>
    intro s rest heq
    obtain ⟨rfl, rfl⟩ : (⟨t, true, true, 0⟩ : CStory) = s ∧ ([] : List CStory) = rest := by
      simpa using heq
    simp
  | insertReplaceDirty t s0 rest0 c hc hin hphys =>
    obtain ⟨hin1, hrest, hphys2, hexc⟩ := hinv s0 rest0 hc
    have hexc0 : s0.excluded = false := by
      cases hx : s0.excluded with
      | false => rfl
      | true => rw [hphys2, if_pos hx] at hphys; simp at hphys
    intro s rest heq
    obtain ⟨rfl, rfl⟩ : (⟨t, true, false, 0⟩ : CStory) = s ∧
        (⟨s0.tuple, false, s0.excluded, s0.delPsn⟩ :: rest0) = rest := by
      simpa using heq
    refine ⟨rfl, ?_, by simp, by simp⟩
    intro x hx
    rcases List.mem_cons.mp hx with rfl | hx
    · exact ⟨rfl, hexc0⟩
    · exact hrest x hx
  | insertReplaceClean t r c hempty hphys =>
    intro s rest heq
    obtain ⟨rfl, rfl⟩ : (⟨t, true, false, 0⟩ : CStory) = s ∧
        ([⟨r, false, false, 0⟩] : List CStory) = rest := by
      simpa using heq
    refine ⟨rfl, ?_, by simp, by simp⟩
    intro x hx
    obtain rfl : x = ⟨r, false, false, 0⟩ := by simpa using hx
    exact ⟨rfl, rfl⟩
  | promote s1 s2 rest0 c hc hin =>
    obtain ⟨hin1, hrest, hphys2, hexc⟩ := hinv s1 (s2 :: rest0) hc
    have hexc1 : s1.excluded = false := by
      cases hx : s1.excluded with
      | false => rfl
      | true => exact absurd (hexc hx) (by simp)
    have hs2 := hrest s2 (List.mem_cons_self _ _)
    intro s rest heq
    obtain ⟨rfl, rfl⟩ : (⟨s2.tuple, true, s2.excluded, s2.delPsn⟩ : CStory) = s ∧
        (⟨s1.tuple, false, s1.excluded, s1.delPsn⟩ :: rest0) = rest := by
      simpa using heq
    refine ⟨rfl, ?_, by simp [hs2.2], by simp [hs2.2]⟩
    intro x hx
    rcases List.mem_cons.mp hx with rfl | hx
    · exact ⟨rfl, hexc1⟩
    · exact hrest x (List.mem_cons_of_mem _ hx)
  | reorderMid pre a b post c hc hpre =>
    cases pre with
    | nil => exact absurd rfl hpre
    | cons hd pre' =>
      obtain ⟨hin1, hrest, hphys2, hexc⟩ :=
        hinv hd (pre' ++ a :: b :: post) (by rw [hc]; simp)
      intro s rest heq
      obtain ⟨rfl, rfl⟩ : hd = s ∧ pre' ++ b :: a :: post = rest := by simpa using heq
      refine ⟨hin1, ?_, hphys2, ?_⟩
      · intro x hx
        apply hrest
        simp only [List.mem_append, List.mem_cons] at hx ⊢
        tauto
      · intro hx
        have hcontra := hexc hx
        simp at hcontra
  | gcUnlinkLast s0 c hc hin =>
    intro s rest heq
    simp at heq
  | gcUnlinkMid pre s0 post c hc hpre =>
    cases pre with
    | nil => exact absurd rfl hpre
    | cons hd pre' =>
      obtain ⟨hin1, hrest, hphys2, hexc⟩ :=
        hinv hd (pre' ++ s0 :: post) (by rw [hc]; simp)
      intro s rest heq
      obtain ⟨rfl, rfl⟩ : hd = s ∧ pre' ++ post = rest := by simpa using heq
      refine ⟨hin1, ?_, hphys2, ?_⟩
      · intro x hx
        apply hrest
        simp only [List.mem_append, List.mem_cons] at hx ⊢
        tauto
      · intro hx
        have hcontra := hexc hx
        simp at hcontra
  | stampDel pre s0 post v c hc =>
    cases pre with
    | nil =>
      obtain ⟨hin1, hrest, hphys2, hexc⟩ := hinv s0 post (by rw [hc]; simp)
      intro s rest heq
      obtain ⟨rfl, rfl⟩ : (⟨s0.tuple, s0.inIndex, s0.excluded, v⟩ : CStory) = s ∧
          post = rest := by simpa using heq
      exact ⟨hin1, hrest, hphys2, fun hx => hexc hx⟩
    | cons hd pre' =>
      obtain ⟨hin1, hrest, hphys2, hexc⟩ :=
        hinv hd (pre' ++ s0 :: post) (by rw [hc]; simp)
      intro s rest heq
      obtain ⟨rfl, rfl⟩ : hd = s ∧
          pre' ++ ⟨s0.tuple, s0.inIndex, s0.excluded, v⟩ :: post = rest := by
        simpa using heq
      refine ⟨hin1, ?_, hphys2, ?_⟩
      · intro x hx
        simp only [List.mem_append, List.mem_cons] at hx
        rcases hx with hx | hx | hx
        · exact hrest x (by simp [hx])
        · have hs0 := hrest s0 (by simp)
          rw [hx]
          exact ⟨hs0.1, hs0.2⟩
        · exact hrest x (by simp [hx])
      · intro hx
        have hcontra := hexc hx
        simp at hcontra
  | invalidate c p =>
    intro s rest heq
    simp at heq

/-- **C2, counterexample.** An excluded-key insertion is reachable and
produces a chain whose single story has `in_index` set while the
physical index holds no entry for the key, refuting the claim's
"the physical index entry for the key resolves to that story's tuple". -/
theorem chain_invariant_counterexample :
    ChainReachable ⟨[⟨7, true, true, 0⟩], none⟩ ∧
    ¬ chainInvClaim ⟨[⟨7, true, true, 0⟩], none⟩ := by
  constructor
  · exact Relation.ReflTransGen.tail Relation.ReflTransGen.refl
      (ChainStep.insertExcluded 7 ⟨[], none⟩ rfl rfl)
  · intro hc
    have h := hc ⟨7, true, true, 0⟩ [] rfl
    simp at h

/-- **C2, amended.** In every reachable chain state, exactly one story
of the chain has `in_index` set and it is the chain head; for a
non-excluded key the physical index entry resolves to the head's tuple
(so the claim holds as stated), while an excluded-key chain is a
degenerate singleton whose head has `in_index` set but no physical
entry.  All chain-mutating primitives of `add_stmt`, `prepare_stmt`,
`commit_stmt`, `rollback_stmt`, `gc_step` and `invalidate_space` —
including `link_top`, which transfers `in_index` and performs the
physical `index.replace` when promoting — preserve this invariant. -/
theorem chain_invariant_amended (c : ChainSt) (h : ChainReachable c) :
    chainInvAmended c ∧
    (∀ s rest, c.stories = s :: rest → s.excluded = false →
      s.inIndex = true ∧ (∀ x ∈ rest, x.inIndex = false) ∧ c.phys = some s.tuple) := by
  have hinv : chainInvAmended c := by
    induction h with
    | refl => intro s rest heq; simp at heq
    | tail _ hstep ih => exact chainStep_inv _ _ hstep ih
  refine ⟨hinv, ?_⟩
  intro s rest heq hexc
  obtain ⟨h1, h2, h3, -⟩ := hinv s rest heq
  exact ⟨h1, fun x hx => (h2 x hx).1, by rwa [hexc] at h3⟩

/-- Witness for the amended C2 at a concretely reached chain (insert
over an empty chain, then a replace of the dirty head). -/
theorem chain_invariant_amended_witness :
    ChainReachable ⟨[⟨8, true, false, 0⟩, ⟨7, false, false, 0⟩], some 8⟩ ∧
    (chainInvAmended ⟨[⟨8, true, false, 0⟩, ⟨7, false, false, 0⟩], some 8⟩ ∧
     (∀ s rest,
       (⟨[⟨8, true, false, 0⟩, ⟨7, false, false, 0⟩], some 8⟩ : ChainSt).stories =
         s :: rest → s.excluded = false →
       s.inIndex = true ∧ (∀ x ∈ rest, x.inIndex = false) ∧
         (⟨[⟨8, true, false, 0⟩, ⟨7, false, false, 0⟩], some 8⟩ : ChainSt).phys =
           some s.tuple)) := by
  have hreach : ChainReachable ⟨[⟨8, true, false, 0⟩, ⟨7, false, false, 0⟩], some 8⟩ := by
    refine Relation.ReflTransGen.tail (Relation.ReflTransGen.tail
      Relation.ReflTransGen.refl (ChainStep.insertNew 7 ⟨[], none⟩ rfl rfl)) ?_
    exact ChainStep.insertReplaceDirty 8 ⟨7, true, false, 0⟩ []
      ⟨[⟨7, true, false, 0⟩], some 7⟩ rfl rfl rfl
  exact ⟨hreach, chain_invariant_amended _ hreach⟩

/-! ## Preparation of an insert statement (C4)

Transcribed from `memtx_tx_history_prepare_insert_stmt`
(memtx_tx.c:2688-2868).  Statements and stories carry numeric ids;
chains are per-index lists of story ids, newest first, each containing
the prepared statement's `add_story`. -/

/-- The statement data read by preparation. -/
structure PStmt where
  txn : Nat
  isOwnChange : Bool
  delStory : Option Nat
deriving DecidableEq, Repr

/-- The story data read by preparation. -/
structure PStory where
  addStmt : Option Nat
  addPsn : Int
  delPsn : Int
deriving DecidableEq, Repr

/-- A gap item on a story link (`GAP_INPLACE` or other). -/
structure GapI where
  txn : Nat
  inplace : Bool
deriving DecidableEq, Repr

/-- The manager state as seen by `memtx_tx_history_prepare_insert_stmt`. -/
structure PState where
  stmts : Nat → PStmt
  stories : Nat → PStory
  chains : List (List Nat)
  delLists : Nat → List Nat
  readers : Nat → List Nat
  gaps : Nat → Nat → List GapI
  sent : List (Nat × Int)

/-- A story is in progress: `add_stmt != NULL && add_psn == 0`
(memtx_tx.c:2713-2714). -/
def inProgressB (stories : Nat → PStory) (n : Nat) : Bool :=
  decide ((stories n).addPsn = 0) && (stories n).addStmt.isSome

/-- The chain re-sort of step 1 (memtx_tx.c:2711-2720) for one index:
the prepared story sinks past the consecutive in-progress older stories.
When the story was the chain head, the first promotion (`link_top` with
`is_new_tuple = false`) also splices the demoted story's `read_gaps`
into the new head (memtx_tx.c:1412-1413). -/
def sortOneChain (stories : Nat → PStory) (g : Nat → Nat → List GapI) (sid idx : Nat)
    (chain : List Nat) : List Nat × (Nat → Nat → List GapI) :=
  match splitAtId chain sid with
  | none => (chain, g)
  | some (pre, post) =>
    let ip := post.takeWhile (inProgressB stories)
    let rest2 := post.dropWhile (inProgressB stories)
    let newChain := pre ++ ip ++ sid :: rest2
    let newGaps :=
      if pre = [] then
        match ip with
        | [] => g
        | t :: _ => fun n i =>
            if i = idx then
              (if n = t then g t idx ++ g sid idx
               else if n = sid then [] else g n idx)
            else g n i
      else g
    (newChain, newGaps)

/-- Step 1 over all indexes. -/
def sortChainsGo (stories : Nat → PStory) (sid : Nat) :
    Nat → List (List Nat) → (Nat → Nat → List GapI) →
    List (List Nat) × (Nat → Nat → List GapI)
  | _, [], g => ([], g)
  | i, ch :: rest, g =>
    let r := sortOneChain stories g sid i ch
    let r2 := sortChainsGo stories sid (i + 1) rest r.2
    (r.1 :: r2.1, r2.2)

/-- Step 2 (memtx_tx.c:2734-2788): relink in-progress deleters.  With no
`del_story`, every newer story of the primary chain whose adder is not
an own-change is linked as a deleter of the added story; otherwise every
other statement deleting `del_story` is moved to delete the added
story. -/
def relinkDeleters (st : PState) (selfStmt sid : Nat) : PState :=
  match (st.stmts selfStmt).delStory with
  | none =>
    let newer :=
      match splitAtId (st.chains.headD []) sid with
      | none => []
      | some (pre, _) => pre.reverse
    let toLink := newer.filterMap (fun n =>
      match (st.stories n).addStmt with
      | none => none
      | some stId =>
        if (st.stmts stId).isOwnChange then none else some stId)
    { st with
      stmts := fun n =>
        if n ∈ toLink then { st.stmts n with delStory := some sid } else st.stmts n,
      delLists := fun n =>
        if n = sid then toLink.reverse ++ st.delLists sid else st.delLists n }
  | some d =>
    let moved := (st.delLists d).filter (fun n => n ≠ selfStmt)
    { st with
      stmts := fun n =>
        if n ∈ moved then { st.stmts n with delStory := some sid } else st.stmts n,
      delLists := fun n =>
        if n = d then (st.delLists d).filter (fun n2 => n2 = selfStmt)
        else if n = sid then moved.reverse ++ st.delLists sid
        else st.delLists n }

/-- `memtx_tx_handle_conflict_story_readers` (memtx_tx.c:2653-2664):
send every reader of the story except the writer to a read view. -/
def sendReaders (st : PState) (storyId writer : Nat) (psn : Int) : PState :=
  { st with sent := st.sent ++
      ((st.readers storyId).filter (fun t => t ≠ writer)).map (fun t => (t, psn)) }

/-- `memtx_tx_handle_conflict_gap_readers` (memtx_tx.c:2670-2682): send
every `GAP_INPLACE` reader of the top story's link except the writer. -/
def sendGapReaders (st : PState) (storyId idx writer : Nat) (psn : Int) : PState :=
  { st with sent := st.sent ++
      ((st.gaps storyId idx).filter
        (fun gi => gi.inplace && gi.txn ≠ writer)).map (fun gi => (gi.txn, psn)) }

/-- One iteration of the secondary-index walk of step 4
(memtx_tx.c:2830-2851): send the adder's transaction to a read view at
the preparing statement's PSN unless the statement belongs to the
preparing transaction, is an own-change with no `del_story`, or deletes
the story being prepared. -/
def walkSendOne (st : PState) (selfTxn sid : Nat) (psn : Int) (n : Nat) :
    List (Nat × Int) :=
  match (st.stories n).addStmt with
  | none => []
  | some stId =>
    if (st.stmts stId).txn = selfTxn then []
    else if (st.stmts stId).isOwnChange && (st.stmts stId).delStory.isNone then []
    else if (st.stmts stId).delStory = some sid then []
    else [((st.stmts stId).txn, psn)]

/-- The walk of step 4 over the newer stories, nearest first. -/
def walkNewerSends (st : PState) (selfTxn sid : Nat) (psn : Int) :
    List Nat → List (Nat × Int)
  | [] => []
  | n :: rest =>
    walkSendOne st selfTxn sid psn n ++ walkNewerSends st selfTxn sid psn rest

lemma walkSendOne_mem (st : PState) (selfTxn sid : Nat) (psn : Int) (n : Nat)
    (t : Nat) (p : Int) :
    (t, p) ∈ walkSendOne st selfTxn sid psn n ↔
      ∃ stId, (st.stories n).addStmt = some stId ∧
        (st.stmts stId).txn = t ∧ p = psn ∧
        (st.stmts stId).txn ≠ selfTxn ∧
        ¬ ((st.stmts stId).isOwnChange = true ∧ (st.stmts stId).delStory = none) ∧
        (st.stmts stId).delStory ≠ some sid := by
  unfold walkSendOne
  cases hadd : (st.stories n).addStmt with
  | none => simp
  | some stId =>
    show (t, p) ∈ (if (st.stmts stId).txn = selfTxn then ([] : List (Nat × Int))
        else if (st.stmts stId).isOwnChange && (st.stmts stId).delStory.isNone then []
        else if (st.stmts stId).delStory = some sid then []
        else [((st.stmts stId).txn, psn)]) ↔ _
    by_cases h1 : (st.stmts stId).txn = selfTxn
    · rw [if_pos h1]
      constructor
      · intro h; simp at h
      · rintro ⟨stId2, ha, hb, hc, hd, he, hf⟩
        obtain rfl : stId = stId2 := by simpa using ha
        exact (hd h1).elim
    · rw [if_neg h1]
      by_cases h2 : (st.stmts stId).isOwnChange = true ∧
          (st.stmts stId).delStory = none
      · have h2b : ((st.stmts stId).isOwnChange &&
            (st.stmts stId).delStory.isNone) = true := by
          simp [h2.1, h2.2]
        rw [if_pos h2b]
        constructor
        · intro h; simp at h
        · rintro ⟨stId2, ha, hb, hc, hd, he, hf⟩
          obtain rfl : stId = stId2 := by simpa using ha
          exact (he h2).elim
      · have h2b : ¬ (((st.stmts stId).isOwnChange &&
            (st.stmts stId).delStory.isNone) = true) := by
          intro hcon
          rcases Bool.and_eq_true _ _ |>.mp hcon with ⟨ho, hn⟩
          exact h2 ⟨ho, Option.isNone_iff_eq_none.mp hn⟩
        rw [if_neg h2b]
        by_cases h3 : (st.stmts stId).delStory = some sid
        · rw [if_pos h3]
          constructor
          · intro h; simp at h
          · rintro ⟨stId2, ha, hb, hc, hd, he, hf⟩
            obtain rfl : stId = stId2 := by simpa using ha
            exact (hf h3).elim
        · rw [if_neg h3]
          constructor
          · intro h
            obtain ⟨rfl, rfl⟩ : t = (st.stmts stId).txn ∧ p = psn := by
              simpa using h
            exact ⟨stId, rfl, rfl, rfl, h1, h2, h3⟩
          · rintro ⟨stId2, ha, hb, hc, hd, he, hf⟩
            obtain rfl : stId = stId2 := by simpa using ha
            rw [← hb, hc]
            simp

/-- `memtx_tx_history_prepare_insert_stmt` (memtx_tx.c:2688-2868):
re-sort the chains, relink deleters, handle the primary-index conflict
(story readers of the replaced story, or gap readers of the primary
head), walk every secondary chain upward sending cross-write conflicts
and the secondary head's gap readers, then stamp the PSNs. -/
def prepareInsertStmt (st : PState) (selfStmt sid : Nat) (psn : Int) : PState :=
  let selfTxn := (st.stmts selfStmt).txn
  let sorted := sortChainsGo st.stories sid 0 st.chains st.gaps
  let st1 := { st with chains := sorted.1, gaps := sorted.2 }
  let st2 := relinkDeleters st1 selfStmt sid
  let st3 :=
    match (st.stmts selfStmt).delStory with
    | some d => sendReaders st2 d selfTxn psn
    | none => sendGapReaders st2 ((st2.chains.headD []).headD sid) 0 selfTxn psn
  let st4 := (List.range (st3.chains.length - 1)).foldl (fun acc i =>
    let chain := acc.chains.getD (i + 1) []
    let newers :=
      match splitAtId chain sid with
      | none => []
      | some (pre, _) => pre.reverse
    let acc2 := { acc with
      sent := acc.sent ++ walkNewerSends acc selfTxn sid psn newers }
    sendGapReaders acc2 (chain.headD sid) (i + 1) selfTxn psn) st3
  { st4 with
    stories := fun n =>
      if n = sid then { st4.stories n with addPsn := psn }
      else
        match (st.stmts selfStmt).delStory with
        | some d => if n = d then { st4.stories n with delPsn := psn } else st4.stories n
        | none => st4.stories n }

/-- The S2 configuration at T1's prepare: three in-progress replaces by
transactions 1, 2, 3 with statements 1, 2, 3 adding stories 11, 12, 13;
stories 11 and 13 share the primary chain, all three share the
secondary chain (the scenario of the comment at memtx_tx.c:2812-2826,
which realizes S2). -/
def s2State : PState :=
  { stmts := fun n =>
      if n = 1 then ⟨1, false, none⟩
      else if n = 2 then ⟨2, false, none⟩
      else if n = 3 then ⟨3, false, none⟩
      else ⟨0, false, none⟩,
    stories := fun n =>
      if n = 11 then ⟨some 1, 0, 0⟩
      else if n = 12 then ⟨some 2, 0, 0⟩
      else if n = 13 then ⟨some 3, 0, 0⟩
      else ⟨none, 0, 0⟩,
    chains := [[13, 11], [13, 12, 11]],
    delLists := fun _ => [],
    readers := fun _ => [],
    gaps := fun _ _ => [],
    sent := [] }

/-- **C4.** The secondary walk of `prepare_stmt` sends exactly the
transactions of the newer stories' adders that do not belong to the
preparing transaction, are not own-changes with no `del_story`, and do
not delete the story being prepared, each at the preparing transaction's
PSN; the gap readers of the secondary chain head are processed the same
way (every `GAP_INPLACE` reader other than the writer); and in the S2
configuration preparing T1's statement at PSN 5 sends exactly T2 to a
read view at PSN 5, leaving T3 untouched. -/
theorem prepare_secondary_conflicts (st : PState) (selfTxn sid : Nat) (psn : Int) :
    (∀ (newers : List Nat) (t : Nat) (p : Int),
      (t, p) ∈ walkNewerSends st selfTxn sid psn newers ↔
        ∃ n ∈ newers, ∃ stId, (st.stories n).addStmt = some stId ∧
          (st.stmts stId).txn = t ∧ p = psn ∧
          (st.stmts stId).txn ≠ selfTxn ∧
          ¬ ((st.stmts stId).isOwnChange = true ∧ (st.stmts stId).delStory = none) ∧
          (st.stmts stId).delStory ≠ some sid) ∧
    (∀ (storyId idx writer : Nat) (t : Nat) (p : Int),
      (t, p) ∈ (sendGapReaders st storyId idx writer psn).sent ↔
        (t, p) ∈ st.sent ∨
        ∃ gi ∈ st.gaps storyId idx, gi.inplace = true ∧ gi.txn ≠ writer ∧
          t = gi.txn ∧ p = psn) ∧
    ((prepareInsertStmt s2State 1 11 5).sent = [(2, 5)] ∧
     (∀ p : Int, ((3 : Nat), p) ∉ (prepareInsertStmt s2State 1 11 5).sent)) := by
  refine ⟨?_, ?_, ?_⟩
  · intro newers t p
    induction newers with
    | nil => simp [walkNewerSends]
    | cons n rest ih =>
      simp only [walkNewerSends, List.mem_append]
      constructor
      · rintro (h | h)
        · obtain ⟨stId, hdata⟩ := (walkSendOne_mem st selfTxn sid psn n t p).mp h
          exact ⟨n, List.mem_cons_self n rest, stId, hdata⟩
        · obtain ⟨m, hm, stId, hdata⟩ := ih.mp h
          exact ⟨m, List.mem_cons_of_mem _ hm, stId, hdata⟩
      · rintro ⟨m, hm, stId, hdata⟩
        rcases List.mem_cons.mp hm with rfl | hm
        · exact Or.inl ((walkSendOne_mem st selfTxn sid psn m t p).mpr ⟨stId, hdata⟩)
        · exact Or.inr (ih.mpr ⟨m, hm, stId, hdata⟩)
  · intro storyId idx writer t p
    unfold sendGapReaders
    simp only [List.mem_append, List.mem_map, List.mem_filter, Bool.and_eq_true,
      decide_eq_true_eq]
    constructor
    · rintro (h | ⟨gi, ⟨hgi, hip, hne⟩, heq⟩)
      · exact Or.inl h
      · obtain ⟨rfl, rfl⟩ : t = gi.txn ∧ p = psn := by simpa using heq.symm
        exact Or.inr ⟨gi, hgi, hip, hne, rfl, rfl⟩
    · rintro (h | ⟨gi, hgi, hip, hne, rfl, rfl⟩)
      · exact Or.inl h
      · exact Or.inr ⟨gi, ⟨hgi, hip, hne⟩, rfl⟩
  · have hs : (prepareInsertStmt s2State 1 11 5).sent = [(2, 5)] := by rfl
    refine ⟨hs, ?_⟩
    intro p hp
    rw [hs] at hp
    simp at hp

/-! ## Insertion of a statement into the history and its failure paths (C8)

Transcribed from `memtx_tx_history_add_insert_stmt`
(memtx_tx.c:2206-2339) and `check_dup` (memtx_tx.c:2019-2080).  Tuples
are numeric ids; each index is a key-to-tuple map with a per-tuple key
extractor, the story chain a dirty tuple resolves through, and a flag
telling whether its `index_replace` reports allocation failure. -/

/-- `enum dup_replace_mode`. -/
inductive DupMode where
  | insert
  | replace
  | replaceOrInsert
deriving DecidableEq, Repr

/-- An index as seen by `memtx_tx_history_add_insert_stmt`: its physical
entries, key extraction, the story chain of each dirty tuple (newest
first, as walked by `memtx_tx_story_find_visible_tuple`), and whether
`index_replace` fails here with an allocation error. -/
structure AIndex where
  entries : Nat → Option Nat
  keyOf : Nat → Nat
  chainOf : Nat → List VStory
  failsAlloc : Bool

/-- The effect of `index_replace(NULL, new_tuple, DUP_REPLACE_OR_INSERT)`
on an index's entries. -/
def insertEntries (ent : Nat → Option Nat) (key newT : Nat) : Nat → Option Nat :=
  fun k => if k = key then some newT else ent k

/-- The effect of the undo call `index_replace(new_tuple, replaced,
DUP_INSERT)` of the fail path (memtx_tx.c:2327-2336). -/
def undoEntries (ent : Nat → Option Nat) (key : Nat) (replaced : Option Nat) :
    Nat → Option Nat :=
  fun k => if k = key then replaced else ent k

/-- `memtx_tx_story_new` marks the new tuple dirty (it asserts the tuple
had no story before). -/
def storyNewMark (hs : Nat → Bool) (t0 : Nat) : Nat → Bool :=
  fun t => if t = t0 then true else hs t

/-- `memtx_tx_story_delete` removes the story of the tuple. -/
def storyDeleteMark (hs : Nat → Bool) (t0 : Nat) : Nat → Bool :=
  fun t => if t = t0 then false else hs t

/-- The replace loop of memtx_tx.c:2223-2236: insert the new tuple into
each index in turn, recording the replaced tuple, and stop at the first
allocation failure.  Returns the performed insertions (index record, new
entries, replaced tuple), the untouched suffix, and the failure flag. -/
def replaceLoop (newT : Nat) :
    List AIndex → List (AIndex × (Nat → Option Nat) × Option Nat) × List AIndex × Bool
  | [] => ([], [], false)
  | ix :: rest =>
    if ix.failsAlloc then ([], ix :: rest, true)
    else
      ((ix, insertEntries ix.entries (ix.keyOf newT) newT,
        ix.entries (ix.keyOf newT)) :: (replaceLoop newT rest).1,
       (replaceLoop newT rest).2.1, (replaceLoop newT rest).2.2)

/-- The undo loop of the fail path (memtx_tx.c:2327-2336), which walks
the performed insertions in reverse index order; each index's entries
are restored independently. -/
def undoLoop (newT : Nat) :
    List (AIndex × (Nat → Option Nat) × Option Nat) → List (Nat → Option Nat)
  | [] => []
  | (ix, ent, repl) :: rest => undoEntries ent (ix.keyOf newT) repl :: undoLoop newT rest

/-- Modelled from the spec: `index_check_dup(old, new, dup, mode)` piped
through the host reports DuplicateKey exactly when the mode forbids
overwriting (`INSERT` "must not overwrite") and a visible duplicate
exists that is not the expected `old` tuple; the secondary-index calls
of `check_dup` pass the primary's visible predecessor as `old`, so they
accept only `None` or that very tuple (comment at memtx_tx.c:2047-2049).
Returns `true` on success (the source returns 0). -/
def indexCheckDup (old dup : Option Nat) (mode : DupMode) : Bool :=
  match mode, dup with
  | DupMode.insert, some d => decide (old = some d)
  | _, _ => true

/-- The visible predecessor of a replaced tuple (memtx_tx.c:2054-2069):
the tuple itself when clean, else the tuple visible to the transaction
in its story chain with `is_prepared_ok = true`. -/
def visibleIn (dirty : Nat → Bool) (txn : Option VTxn) (ix : AIndex) (r : Nat) :
    Option Nat :=
  if dirty r then findVisibleTuple (ix.chainOf r) txn true else some r

/-- The primary-index visible predecessor (memtx_tx.c:2027-2038). -/
def visPrimary (dirty : Nat → Bool) (txn : Option VTxn) (ix0 : AIndex)
    (r0 : Option Nat) : Option Nat :=
  match r0 with
  | none => none
  | some r => visibleIn dirty txn ix0 r

/-- The secondary-index loop of `check_dup` (memtx_tx.c:2046-2076) over
(index, directly-replaced) pairs: a `NULL` replaced tuple is always OK;
otherwise the visible duplicate must pass `index_check_dup` against the
primary's visible predecessor with `DUP_INSERT`. -/
def checkDupSecondary (dirty : Nat → Bool) (txn : Option VTxn) (vr : Option Nat) :
    List (AIndex × Option Nat) → Bool
  | [] => true
  | (_, none) :: rest => checkDupSecondary dirty txn vr rest
  | (ix, some r) :: rest =>
    indexCheckDup vr (visibleIn dirty txn ix r) DupMode.insert &&
    checkDupSecondary dirty txn vr rest

/-- `check_dup` (memtx_tx.c:2019-2080) over the (index, replaced) pairs,
primary first: resolve the primary's visible predecessor, check it
against the statement's mode, then run the secondary loop; returns the
updated `old_tuple` (the visible predecessor) on success and `none` on
failure. -/
def checkDup (dirty : Nat → Bool) (txn : Option VTxn) (oldTuple : Option Nat)
    (mode : DupMode) : List (AIndex × Option Nat) → Option (Option Nat)
  | [] => some oldTuple
  | (ix0, r0) :: rest =>
    if indexCheckDup oldTuple (visPrimary dirty txn ix0 r0) mode then
      (if checkDupSecondary dirty txn (visPrimary dirty txn ix0 r0) rest then
        some (visPrimary dirty txn ix0 r0)
      else none)
    else none

/-- What C8 observes of `memtx_tx_history_add_insert_stmt`: the return
value, the per-index physical entries, and which tuples have stories. -/
structure AddResult where
  ok : Bool
  indexes : List (Nat → Option Nat)
  hasStory : Nat → Bool

/-- `memtx_tx_history_add_insert_stmt` (memtx_tx.c:2206-2339), observed
on the story set and the physical indexes: create the new story, run the
replace loop, and on allocation failure or `check_dup` failure undo the
performed insertions in reverse order and delete the new story
(memtx_tx.c:2326-2338); the later linking steps of the success path are
not modelled.  The read tracked by the `check_dup` failure path
(memtx_tx.c:2042, 2073) touches neither stories nor indexes. -/
def historyAddInsertStmt (dirty : Nat → Bool) (txn : Option VTxn)
    (oldTuple : Option Nat) (newT : Nat) (mode : DupMode)
    (hasStory : Nat → Bool) (ixs : List AIndex) : AddResult :=
  if (replaceLoop newT ixs).2.2 then
    { ok := false,
      indexes := undoLoop newT (replaceLoop newT ixs).1 ++
        ((replaceLoop newT ixs).2.1.map AIndex.entries),
      hasStory := storyDeleteMark (storyNewMark hasStory newT) newT }
  else if checkDup dirty txn oldTuple mode
      ((replaceLoop newT ixs).1.map (fun e => (e.1, e.2.2))) = none then
    { ok := false,
      indexes := undoLoop newT (replaceLoop newT ixs).1 ++
        ((replaceLoop newT ixs).2.1.map AIndex.entries),
      hasStory := storyDeleteMark (storyNewMark hasStory newT) newT }
  else
    { ok := true,
      indexes := (replaceLoop newT ixs).1.map (fun e => e.2.1),
      hasStory := storyNewMark hasStory newT }

lemma undo_insertEntries (ent : Nat → Option Nat) (key newT : Nat) :
    undoEntries (insertEntries ent key newT) key (ent key) = ent := by
  funext k
  by_cases h : k = key
  · subst h; simp [undoEntries, insertEntries]
  · simp [undoEntries, insertEntries, h]

lemma replaceLoop_cons_fail (newT : Nat) (ix : AIndex) (rest : List AIndex)
    (hf : ix.failsAlloc = true) :
    replaceLoop newT (ix :: rest) = ([], ix :: rest, true) := by
  simp [replaceLoop, hf]

lemma replaceLoop_cons_ok (newT : Nat) (ix : AIndex) (rest : List AIndex)
    (hf : ¬ ix.failsAlloc = true) :
    replaceLoop newT (ix :: rest) =
      ((ix, insertEntries ix.entries (ix.keyOf newT) newT,
        ix.entries (ix.keyOf newT)) :: (replaceLoop newT rest).1,
       (replaceLoop newT rest).2.1, (replaceLoop newT rest).2.2) := by
  simp [replaceLoop, hf]

lemma replaceLoop_fail_iff (newT : Nat) (ixs : List AIndex) :
    (replaceLoop newT ixs).2.2 = true ↔ ∃ ix ∈ ixs, ix.failsAlloc = true := by
  induction ixs with
  | nil => simp [replaceLoop]
  | cons ix rest ih =>
    by_cases h : ix.failsAlloc = true
    · rw [replaceLoop_cons_fail newT ix rest h]
      exact iff_of_true rfl ⟨ix, List.mem_cons_self ix rest, h⟩
    · rw [replaceLoop_cons_ok newT ix rest h]
      show (replaceLoop newT rest).2.2 = true ↔ _
      rw [ih]
      constructor
      · rintro ⟨m, hm, hfa⟩
        exact ⟨m, List.mem_cons_of_mem _ hm, hfa⟩
      · rintro ⟨m, hm, hfa⟩
        rcases List.mem_cons.mp hm with rfl | hm
        · exact absurd hfa h
        · exact ⟨m, hm, hfa⟩

lemma replaceLoop_noFail (newT : Nat) (ixs : List AIndex)
    (h : (replaceLoop newT ixs).2.2 = false) :
    (replaceLoop newT ixs).1.map (fun e => (e.1, e.2.2)) =
      ixs.map (fun ix => (ix, ix.entries (ix.keyOf newT))) ∧
    (replaceLoop newT ixs).2.1 = [] := by
  induction ixs with
  | nil => simp [replaceLoop]
  | cons ix rest ih =>
    by_cases hf : ix.failsAlloc = true
    · rw [replaceLoop_cons_fail newT ix rest hf] at h
      simp at h
    · rw [replaceLoop_cons_ok newT ix rest hf] at h ⊢
      obtain ⟨h1, h2⟩ := ih h
      refine ⟨?_, h2⟩
      show ((ix, insertEntries ix.entries (ix.keyOf newT) newT,
          ix.entries (ix.keyOf newT)) :: (replaceLoop newT rest).1).map
        (fun e => (e.1, e.2.2)) = _
      simp only [List.map_cons]
      rw [h1]

lemma replaceLoop_restore (newT : Nat) (ixs : List AIndex) :
    undoLoop newT (replaceLoop newT ixs).1 ++
      ((replaceLoop newT ixs).2.1.map AIndex.entries) = ixs.map AIndex.entries := by
  induction ixs with
  | nil => simp [replaceLoop, undoLoop]
  | cons ix rest ih =>
    by_cases hf : ix.failsAlloc = true
    · rw [replaceLoop_cons_fail newT ix rest hf]
      simp [undoLoop]
    · rw [replaceLoop_cons_ok newT ix rest hf]
      show (undoEntries (insertEntries ix.entries (ix.keyOf newT) newT)
          (ix.keyOf newT) (ix.entries (ix.keyOf newT)) ::
          undoLoop newT (replaceLoop newT rest).1) ++
        ((replaceLoop newT rest).2.1.map AIndex.entries) = _
      rw [undo_insertEntries, List.cons_append, ih, List.map_cons]

lemma storyMark_cancel (hs : Nat → Bool) (t0 : Nat) (h : hs t0 = false) :
    storyDeleteMark (storyNewMark hs t0) t0 = hs := by
  funext t
  by_cases ht : t = t0
  · subst ht; simp [storyDeleteMark, h]
  · simp [storyDeleteMark, storyNewMark, ht]

lemma indexCheckDup_false_iff (old dup : Option Nat) (mode : DupMode) :
    indexCheckDup old dup mode = false ↔
      mode = DupMode.insert ∧ ∃ d, dup = some d ∧ old ≠ some d := by
  cases mode <;> cases dup <;> simp [indexCheckDup]

lemma checkDupSecondary_false_iff (dirty : Nat → Bool) (txn : Option VTxn)
    (vr : Option Nat) (pairs : List (AIndex × Option Nat)) :
    checkDupSecondary dirty txn vr pairs = false ↔
      ∃ p ∈ pairs, ∃ r d, p.2 = some r ∧
        visibleIn dirty txn p.1 r = some d ∧ vr ≠ some d := by
  induction pairs with
  | nil => simp [checkDupSecondary]
  | cons p rest ih =>
    obtain ⟨ix, r0⟩ := p
    cases r0 with
    | none =>
      simp only [checkDupSecondary, ih, List.mem_cons]
      constructor
      · rintro ⟨q, hq, hdata⟩
        exact ⟨q, Or.inr hq, hdata⟩
      · rintro ⟨q, (rfl | hq), r, d, hr, hdata⟩
        · simp at hr
        · exact ⟨q, hq, r, d, hr, hdata⟩
    | some r =>
      simp only [checkDupSecondary, Bool.and_eq_false_iff, ih, List.mem_cons]
      constructor
      · rintro (hA | hB)
        · obtain ⟨_, d, hv, hne⟩ := (indexCheckDup_false_iff _ _ _).mp hA
          exact ⟨(ix, some r), Or.inl rfl, r, d, rfl, hv, hne⟩
        · obtain ⟨q, hq, hdata⟩ := hB
          exact ⟨q, Or.inr hq, hdata⟩
      · rintro ⟨q, (rfl | hq), r2, d, hr, hv, hne⟩
        · left
          obtain rfl : r = r2 := by simpa using hr
          exact (indexCheckDup_false_iff _ _ _).mpr ⟨rfl, d, hv, hne⟩
        · exact Or.inr ⟨q, hq, r2, d, hr, hv, hne⟩

lemma checkDup_cons_none_iff (dirty : Nat → Bool) (txn : Option VTxn)
    (oldTuple : Option Nat) (mode : DupMode) (ix0 : AIndex) (r0 : Option Nat)
    (rest : List (AIndex × Option Nat)) :
    checkDup dirty txn oldTuple mode ((ix0, r0) :: rest) = none ↔
      (mode = DupMode.insert ∧ ∃ d, visPrimary dirty txn ix0 r0 = some d ∧
        oldTuple ≠ some d) ∨
      (∃ p ∈ rest, ∃ r d, p.2 = some r ∧ visibleIn dirty txn p.1 r = some d ∧
        visPrimary dirty txn ix0 r0 ≠ some d) := by
  show (if indexCheckDup oldTuple (visPrimary dirty txn ix0 r0) mode then
      (if checkDupSecondary dirty txn (visPrimary dirty txn ix0 r0) rest then
        some (visPrimary dirty txn ix0 r0)
      else none)
    else none) = none ↔ _
  by_cases h1 : indexCheckDup oldTuple (visPrimary dirty txn ix0 r0) mode = true
  · rw [if_pos h1]
    by_cases h2 : checkDupSecondary dirty txn (visPrimary dirty txn ix0 r0) rest = true
    · rw [if_pos h2]
      constructor
      · intro h; simp at h
      · rintro (hA | hB)
        · obtain ⟨hm, d, hv, hne⟩ := hA
          have : indexCheckDup oldTuple (visPrimary dirty txn ix0 r0) mode = false :=
            (indexCheckDup_false_iff _ _ _).mpr ⟨hm, d, hv, hne⟩
          rw [h1] at this; exact absurd this (by simp)
        · have : checkDupSecondary dirty txn (visPrimary dirty txn ix0 r0) rest = false :=
            (checkDupSecondary_false_iff _ _ _ _).mpr hB
          rw [h2] at this; exact absurd this (by simp)
    · rw [if_neg h2]
      have hB := (checkDupSecondary_false_iff dirty txn
        (visPrimary dirty txn ix0 r0) rest).mp (Bool.not_eq_true _ |>.mp h2)
      exact iff_of_true rfl (Or.inr hB)
  · rw [if_neg h1]
    have hA := (indexCheckDup_false_iff oldTuple
      (visPrimary dirty txn ix0 r0) mode).mp (Bool.not_eq_true _ |>.mp h1)
    exact iff_of_true rfl (Or.inl hA)

/-- **C8.** `history_add_stmt` on an insert returns failure exactly on
an allocation failure in some index's `index_replace` or on the
duplicate check failing, where the duplicate check fails exactly when
the mode is `INSERT` and a visible predecessor other than the expected
old tuple exists in the primary index, or some secondary index holds a
visible duplicate other than the primary's visible predecessor; and on
every failure the performed insertions are undone so that all index
entries and the story set are exactly as before the call (the new
tuple had no story, as asserted by `memtx_tx_story_new`). -/
theorem add_insert_stmt_failure_semantics (dirty : Nat → Bool) (txn : Option VTxn)
    (oldTuple : Option Nat) (newT : Nat) (mode : DupMode)
    (hasStory : Nat → Bool) (ixs : List AIndex)
    (hnew : hasStory newT = false) :
    ((historyAddInsertStmt dirty txn oldTuple newT mode hasStory ixs).ok = false ↔
      (∃ ix ∈ ixs, ix.failsAlloc = true) ∨
      checkDup dirty txn oldTuple mode
        (ixs.map (fun ix => (ix, ix.entries (ix.keyOf newT)))) = none) ∧
    (∀ (ix0 : AIndex) (r0 : Option Nat) (rest : List (AIndex × Option Nat)),
      checkDup dirty txn oldTuple mode ((ix0, r0) :: rest) = none ↔
        (mode = DupMode.insert ∧ ∃ d, visPrimary dirty txn ix0 r0 = some d ∧
          oldTuple ≠ some d) ∨
        (∃ p ∈ rest, ∃ r d, p.2 = some r ∧ visibleIn dirty txn p.1 r = some d ∧
          visPrimary dirty txn ix0 r0 ≠ some d)) ∧
    ((historyAddInsertStmt dirty txn oldTuple newT mode hasStory ixs).ok = false →
      (historyAddInsertStmt dirty txn oldTuple newT mode hasStory ixs).indexes =
        ixs.map AIndex.entries ∧
      (historyAddInsertStmt dirty txn oldTuple newT mode hasStory ixs).hasStory =
        hasStory) := by
  refine ⟨?_, fun ix0 r0 rest => checkDup_cons_none_iff dirty txn oldTuple mode ix0 r0 rest, ?_⟩
  · unfold historyAddInsertStmt
    by_cases hf : (replaceLoop newT ixs).2.2 = true
    · rw [if_pos hf]
      exact iff_of_true rfl (Or.inl ((replaceLoop_fail_iff newT ixs).mp hf))
    · rw [if_neg hf]
      have hf2 : (replaceLoop newT ixs).2.2 = false := Bool.not_eq_true _ |>.mp hf
      have hmap := (replaceLoop_noFail newT ixs hf2).1
      rw [hmap]
      by_cases hc : checkDup dirty txn oldTuple mode
          (ixs.map (fun ix => (ix, ix.entries (ix.keyOf newT)))) = none
      · rw [if_pos hc]
        exact iff_of_true rfl (Or.inr hc)
      · rw [if_neg hc]
        refine iff_of_false (by simp) ?_
        rintro (h | h)
        · rw [(replaceLoop_fail_iff newT ixs).mpr h] at hf2
          exact absurd hf2 (by simp)
        · exact hc h
  · unfold historyAddInsertStmt
    by_cases hf : (replaceLoop newT ixs).2.2 = true
    · rw [if_pos hf]
      intro _
      exact ⟨replaceLoop_restore newT ixs, storyMark_cancel hasStory newT hnew⟩
    · rw [if_neg hf]
      by_cases hc : checkDup dirty txn oldTuple mode
          ((replaceLoop newT ixs).1.map (fun e => (e.1, e.2.2))) = none
      · rw [if_pos hc]
        intro _
        exact ⟨replaceLoop_restore newT ixs, storyMark_cancel hasStory newT hnew⟩
      · rw [if_neg hc]
        intro h
        simp at h

/-- Concrete configuration for the C8 witness: a single primary index
holding clean tuple 50 at key 0, no dirty tuples, no stories. -/
def c8Ixs : List AIndex :=
  [{ entries := fun k => if k = 0 then some 50 else none,
     keyOf := fun _ => 0,
     chainOf := fun _ => [],
     failsAlloc := false }]

/-- No tuple is dirty in the C8 witness configuration. -/
def c8Dirty : Nat → Bool := fun _ => false

/-- No tuple has a story in the C8 witness configuration. -/
def c8HasStory : Nat → Bool := fun _ => false

/-- Witness for C8: inserting tuple 60 with mode `INSERT` over the
occupied key fails, and the index entries and story set are restored. -/
theorem add_insert_stmt_failure_semantics_witness :
    c8HasStory 60 = false ∧
    (historyAddInsertStmt c8Dirty none none 60 DupMode.insert c8HasStory c8Ixs).ok = false ∧
    (historyAddInsertStmt c8Dirty none none 60 DupMode.insert c8HasStory c8Ixs).indexes =
      c8Ixs.map AIndex.entries ∧
    (historyAddInsertStmt c8Dirty none none 60 DupMode.insert c8HasStory c8Ixs).hasStory =
      c8HasStory := by
  have h := add_insert_stmt_failure_semantics c8Dirty none none 60 DupMode.insert
    c8HasStory c8Ixs rfl
  have hok : (historyAddInsertStmt c8Dirty none none 60 DupMode.insert
      c8HasStory c8Ixs).ok = false := by
    apply h.1.mpr
    right
    rfl
  exact ⟨rfl, hok, (h.2.2 hok).1, (h.2.2 hok).2⟩

end MemtxTx
